import Mathlib

/-!
Verification of the jankenstore schema-driven relational-data access layer.

The Rust source is shallowly embedded:
* `rusqlite::types::Type` becomes `DbType`, `rusqlite::types::Value` becomes `Val`
  (the `f64` payload of `Real` is carried as an `Int` stand-in; no claim computes
  with real-number arithmetic, only the constructor and the canonical `0.0`
  default matter),
* `HashMap<String, V>` becomes an association list `List (String × V)` whose
  lookup returns the most recently inserted binding (insert = cons), matching
  `HashMap::insert` overwrite semantics; a `HashMap`'s unspecified iteration
  order is modelled by the list order, so theorems quantify over all orders,
* `HashMap<String, HashSet<String>>` relationship maps (`peers`, `parents`,
  `children`) become edge lists `List (String × String)`; `(k, v)` being a
  member of the edge list models `map[k].contains(v)`,
* fallible Rust functions returning `anyhow::Result` become `Except Err`,
* database side effects are modelled by returning the SQL statement that would
  be prepared and executed (`DbOp`), or, for the peer-link operations, by
  explicit state passing over the junction table's rows.
-/

/-- Mirror of `rusqlite::types::Type` (the five runtime type tags). -/
inductive DbType where
  | integer
  | real
  | text
  | blob
  | null
deriving DecidableEq, Repr

/-- Mirror of `rusqlite::types::Value`. The `real` payload is an abstract
stand-in for the `f64` bits; the code never does float arithmetic on it. -/
inductive Val where
  | integer (i : Int)
  | real (r : Int)
  | text (s : String)
  | blob (b : List Nat)
  | null
deriving DecidableEq, Repr

/-- Mirror of `rusqlite::types::Value::data_type`. -/
def Val.dataType : Val → DbType
  | .integer _ => .integer
  | .real _ => .real
  | .text _ => .text
  | .blob _ => .blob
  | .null => .null

/-- Structured rendering of the `anyhow::anyhow!` error messages produced by the
source; each constructor carries the context values interpolated into the
corresponding message. -/
inductive Err where
  | tableNotFound (table : String)
  | invalidType (col table : String)
  | invalidPeerTableName (table : String)
  | missingPeerFkColumn (table fk : String)
  | peerTableMissing (peer relTable : String)
  | fkTypeMismatch (col child parent : String)
  | parentMissing (parent child col : String)
  | unknownColumn (col table : String)
  | notDefined (col table : String)
  | requiredButEmpty (field table : String)
  | wrongType (col table : String)
  | pkNotUpdatable (pk table : String)
  | emptyClause
  | noPeers (table : String)
  | notPeerOf (a b : String)
  | not2Tables (n : Nat)
  | illegalChars (clause : String)
deriving DecidableEq, Repr

/-- A SQL statement the code would hand to `Connection::prepare`/`execute`,
with its positional parameters. -/
inductive DbOp where
  | exec (sql : String) (params : List Val)
  | query (sql : String) (params : List Val)
deriving DecidableEq, Repr

/-- Model of Rust `s.trim().is_empty()`: every character is whitespace.
Defined over the character list so that it evaluates inside the kernel. -/
def trimIsEmpty (s : String) : Bool := s.data.all Char.isWhitespace

/-- Model of Rust `str::trim` (drop leading and trailing whitespace). -/
def strTrim (s : String) : String :=
  String.mk (((s.data.dropWhile Char.isWhitespace).reverse.dropWhile Char.isWhitespace).reverse)

/-- Model of Rust `str::to_uppercase` restricted to its ASCII behavior, which
is all the type names in the source use. -/
def strToUpper (s : String) : String := String.mk (s.data.map Char.toUpper)

/-- Model of Rust `str::starts_with` for a literal pattern. -/
def strStartsWith (s pat : String) : Bool := pat.data.isPrefixOf s.data

/-- Model of Rust `str::ends_with` for a literal pattern. -/
def strEndsWith (s pat : String) : Bool := pat.data.isSuffixOf s.data

/-- Character-predicate search over a string (Rust `str::contains(char set)`). -/
def strAnyChar (s : String) (p : Char → Bool) : Bool := s.data.any p

/-- Fuel-driven splitter behind `strSplitOn`; the fuel starts above the input
length so it never runs out, and makes the recursion structural so the kernel
can evaluate it. -/
def splitOnAux (sep : List Char) : Nat → List Char → List Char → List (List Char)
  | 0, l, cur => [cur.reverse ++ l]
  | _ + 1, [], cur => [cur.reverse]
  | fuel + 1, c :: rest, cur =>
    if sep.isPrefixOf (c :: rest) then
      cur.reverse :: splitOnAux sep fuel (List.drop (sep.length - 1) rest) []
    else splitOnAux sep fuel rest (c :: cur)

/-- Model of Rust `str::split` on a non-empty literal separator (which is the
only way the source calls it): left-to-right scan, the scanner resumes after
each separator occurrence. -/
def strSplitOn (s sep : String) : List String :=
  (splitOnAux sep.data (s.data.length + 1) s.data []).map String.mk

/-- Association-list lookup; returns the binding closest to the head, which is
the most recently inserted one when insertion conses. Models `HashMap::get`. -/
def alookup {α : Type} (k : String) : List (String × α) → Option α
  | [] => none
  | (k', v) :: rest => if k' = k then some v else alookup k rest

/-- Mirror of `jankenstore::sqlite::basics::is_empty`. -/
def is_empty : Val → Bool
  | .null => true
  | .text s => trimIsEmpty s
  | .blob b => b.isEmpty
  | _ => false

/-- Mirror of `Schema` (sqlite/schema.rs): per-table name, primary key,
required-field set, column types and column defaults. -/
structure Schema where
  name : String
  pk : String
  required_fields : List String
  types : List (String × DbType)
  defaults : List (String × Val)
deriving DecidableEq, Repr

/-- Mirror of `Schema::find_unknown_field`: first challenged column that is not
a key of `types`. -/
def Schema.find_unknown_field (s : Schema) (challenges : List String) : Option String :=
  challenges.find? (fun f => (alookup f s.types).isNone)

/-- Mirror of `ColumnMeta` (sqlite/schema.rs). -/
structure ColumnMeta where
  name : String
  col_type : DbType
  is_required : Bool
  dflt : Val
  is_pk : Bool
deriving DecidableEq, Repr

/-- Mirror of `SchemaFamily` (sqlite/schema.rs). The multi-valued maps are
edge lists; `peer_link_tables` keeps `HashMap` overwrite semantics through
`alookup` (first match = last insert). -/
structure SchemaFamily where
  map : List (String × Schema)
  parents : List (String × String)
  children : List (String × String)
  peers : List (String × String)
  peer_link_tables : List (String × String)
deriving DecidableEq, Repr

/-- Mirror of `SchemaFamily::try_get_schema`. -/
def SchemaFamily.try_get_schema (f : SchemaFamily) (table_name : String) : Except Err Schema :=
  match alookup table_name f.map with
  | some s => .ok s
  | none => .error (.tableNotFound table_name)

/-- Mirror of `SchemaFamily::try_get_peer_link_table_of`. -/
def SchemaFamily.try_get_peer_link_table_of (f : SchemaFamily) (table_name : String) :
    Except Err String :=
  match alookup table_name f.peer_link_tables with
  | some s => .ok s
  | none => .error (.noPeers table_name)

/-- Mirror of `SchemaFamily::verify_peer_of`: peer membership check on the
`peers` map (edge list membership models `peers[a].contains(b)`). -/
def SchemaFamily.verify_peer_of (f : SchemaFamily) (peer1_name peer2_name : String) :
    Except Err Unit :=
  if (peer1_name, peer2_name) ∈ f.peers then .ok () else .error (.notPeerOf peer1_name peer2_name)

/-- Mirror of `SchemaFamily::verify_child_of`. -/
def SchemaFamily.verify_child_of (f : SchemaFamily) (child_name parent_name : String) :
    Except Err Unit :=
  if (child_name, parent_name) ∈ f.parents then .ok ()
  else .error (.notPeerOf child_name parent_name)

/-- Mirror of `column_meta_items_to_schema` (sqlite/schema.rs). The source
iterates a `HashMap<String, ColumnMeta>` and always returns `Ok`; the model
folds over the metadata in iteration order. A column becomes required when it
is explicitly required, is the primary key, or its name ends with `"_id"`.
The loop body is the named step function `cmits_step`. -/
def cmits_step (acc : Schema) (meta : ColumnMeta) : Schema :=
  { acc with
    required_fields :=
      if meta.is_required || meta.is_pk || strEndsWith meta.name "_id" then
        meta.name :: acc.required_fields
      else acc.required_fields,
    pk := if meta.is_pk then meta.name else acc.pk,
    defaults := (meta.name, meta.dflt) :: acc.defaults,
    types := (meta.name, meta.col_type) :: acc.types }

def column_meta_items_to_schema (table_name : String) (column_meta : List ColumnMeta) : Schema :=
  column_meta.foldl cmits_step
    { name := table_name, pk := "", required_fields := [], types := [], defaults := [] }

/-- Mirror of `get_type_from_str` (sqlite/schema.rs). -/
def get_type_from_str (t : String) : DbType :=
  let u := strToUpper (strTrim t)
  if u = "INTEGER" then .integer
  else if u = "REAL" then .real
  else if u = "TEXT" then .text
  else if u = "BLOB" then .blob
  else .null

/-- Mirror of `get_default_db_value` (sqlite/schema.rs): canonical zero/empty
value of each declared type. -/
def get_default_db_value : DbType → Val
  | .integer => .integer 0
  | .real => .real 0
  | .text => .text ""
  | .blob => .blob []
  | .null => .null

/-- One row of `PRAGMA table_info(...)` as read by `get_columns_meta`:
(name, declared type text, not-null flag, default literal, primary-key flag). -/
structure RawColumn where
  name : String
  decl_type : String
  is_required : Bool
  dflt : Val
  is_pk : Bool
deriving DecidableEq, Repr

/-- The two-character string of two single quotes (the source literal `"''"`). -/
def squotes : String := String.mk [Char.ofNat 39, Char.ofNat 39]

/-- The two-character string of two double quotes (the source raw literal). -/
def dquotes : String := String.mk [Char.ofNat 34, Char.ofNat 34]

/-- Mirror of `get_columns_meta` (sqlite/schema.rs): maps each catalog row to a
`ColumnMeta`, failing on the first column whose declared type does not map to
one of the four primitives; normalizes quoted-empty text defaults to `""` and
replaces a `Null` catalog default with the type's zero/empty value. The source
keys results by name in a `HashMap`; the model keeps the processed list, which
carries the same per-column facts. The default normalization (quoted-empty
text to `""`, then `Null` to the type's zero value) is the named helper
`normalize_default`. -/
def normalize_default (raw : Val) (col_type : DbType) : Val :=
  let d :=
    match raw with
    | .text t => if t.isEmpty || t = squotes || t = dquotes then Val.text "" else raw
    | _ => raw
  match d with
  | .null => get_default_db_value col_type
  | _ => d

def get_columns_meta (table : String) : List RawColumn → Except Err (List ColumnMeta)
  | [] => .ok []
  | r :: rest =>
    let col_type := get_type_from_str r.decl_type
    if col_type = .null then
      .error (.invalidType r.name table)
    else
      match get_columns_meta table rest with
      | .ok ms =>
        .ok (⟨r.name, col_type, r.is_required, normalize_default r.dflt col_type, r.is_pk⟩ :: ms)
      | .error e => .error e

/-- Mirror of Rust's `?` operator on `anyhow::Result`: propagate the error,
otherwise continue with the payload. -/
def ebind {A B : Type} (x : Except Err A) (g : A → Except Err B) : Except Err B :=
  match x with
  | .error e => .error e
  | .ok y => g y

/-- Mirror of the per-peer-name foreign-key-column check inside
`get_peer_names`: when the segment names a known table, the junction table must
contain the column `<segment>_<that table's pk>`. -/
def peer_fk_check (pk_name_map : List (String × String)) (table_name : String)
    (columns : List ColumnMeta) (p : String) : Except Err Unit :=
  match alookup p pk_name_map with
  | some pk_name =>
    let fk := p ++ "_" ++ pk_name
    if columns.any (fun c => c.name = fk) then .ok ()
    else .error (.missingPeerFkColumn table_name fk)
  | none => .ok ()

/-- Mirror of `get_peer_names` (sqlite/schema.rs): split the junction-table
name on the splitter, drop the leading prefix segment, require exactly two
remaining segments, then run the foreign-key-column check on both. -/
def get_peer_names (pk_name_map : List (String × String)) (table_name pfx splitter : String)
    (columns : List ColumnMeta) : Except Err (String × String) :=
  match (strSplitOn table_name splitter).drop 1 with
  | [p1, p2] =>
    ebind (peer_fk_check pk_name_map table_name columns p1) (fun _ =>
      ebind (peer_fk_check pk_name_map table_name columns p2) (fun _ => .ok (p1, p2)))
  | _ =>
    let _ := pfx
    .error (.invalidPeerTableName table_name)

/-- Mirror of `extract_schema_metadata` (sqlite/schema.rs): per table, read the
column metadata and convert it to a `Schema`. -/
def extract_schema_metadata :
    List (String × List RawColumn) → Except Err (List (String × Schema × List ColumnMeta))
  | [] => .ok []
  | (name, raws) :: rest =>
    match get_columns_meta name raws with
    | .error e => .error e
    | .ok columns =>
      match extract_schema_metadata rest with
      | .error e => .error e
      | .ok tl => .ok ((name, column_meta_items_to_schema name columns, columns) :: tl)

/-- Default junction-table name pieces (`DEFAULT_PEER_PREFIX` and
`DEFAULT_PEER_SPLITTER` in sqlite/schema.rs). -/
def DEFAULT_PEER_PFX : String := "rel"

def DEFAULT_PEER_SPLITTER : String := "_"

/-- Mirror of the argument defaulting at the top of `fetch_schema_family`:
an empty/whitespace-only prefix or splitter falls back to the default. -/
def effective_name_part (dflt s : String) : String := if trimIsEmpty s then dflt else s

/-- Mirror of the closure `is_peer_link` in `fetch_schema_family`: the
junction-candidate classification consults only the prefix. -/
def is_peer_link (pfx table_name : String) : Bool := strStartsWith table_name pfx

/-- Accumulators of the first loop of `fetch_schema_family`. -/
structure ResolveAcc where
  map : List (String × Schema)
  peer_tables : List (String × String)
  peer_pair_candidates : List (String × String × String)
  column_map : List (String × List ColumnMeta)
  possible_fks : List (String × String × DbType)
deriving DecidableEq, Repr

/-- Mirror of the first loop of `fetch_schema_family`: every table enters
`map`; a junction candidate (name starts with the prefix) is split into its
two peer names, registers both in `peer_tables` (insert order p1 then p2) and
is queued as a peer-pair candidate; an entity table registers its columns and
its possible foreign-key name `<table>_<pk>` with the pk's type. -/
def resolve_tables (pk_name_map : List (String × String)) (pfx splitter : String) :
    List (String × Schema × List ColumnMeta) → ResolveAcc → Except Err ResolveAcc
  | [], acc => .ok acc
  | (table, schema, columns) :: rest, acc =>
    if is_peer_link pfx table then
      match get_peer_names pk_name_map table pfx splitter columns with
      | .error e => .error e
      | .ok (p1, p2) =>
        resolve_tables pk_name_map pfx splitter rest
          { acc with
            map := (table, schema) :: acc.map,
            peer_tables := (p2, table) :: (p1, table) :: acc.peer_tables,
            peer_pair_candidates := acc.peer_pair_candidates ++ [(p1, p2, table)] }
    else
      let pk_type := (alookup schema.pk schema.types).getD .null
      resolve_tables pk_name_map pfx splitter rest
        { acc with
          map := (table, schema) :: acc.map,
          column_map := (table, columns) :: acc.column_map,
          possible_fks := (table ++ "_" ++ schema.pk, table, pk_type) :: acc.possible_fks }

/-- Mirror of the inner column scan of the second loop of
`fetch_schema_family`: a column whose name matches a possible foreign key must
have the referenced primary key's type, else the whole resolution fails. -/
def scan_columns (possible_fks : List (String × String × DbType)) (child_table : String) :
    List ColumnMeta → Except Err (List (String × String × String))
  | [] => .ok []
  | meta :: rest =>
    match alookup meta.name possible_fks with
    | some (parent_table, expected_type) =>
      if meta.col_type ≠ expected_type then
        .error (.fkTypeMismatch meta.name child_table parent_table)
      else
        match scan_columns possible_fks child_table rest with
        | .error e => .error e
        | .ok r => .ok ((parent_table, child_table, meta.name) :: r)
    | none => scan_columns possible_fks child_table rest

/-- Mirror of the second loop of `fetch_schema_family`, iterating the table
map and scanning each entity table's columns for foreign keys. -/
def find_parent_candidates (column_map : List (String × List ColumnMeta))
    (possible_fks : List (String × String × DbType)) :
    List (String × Schema) → Except Err (List (String × String × String))
  | [] => .ok []
  | (child_table, _) :: restMap =>
    match alookup child_table column_map with
    | none => find_parent_candidates column_map possible_fks restMap
    | some columns =>
      match scan_columns possible_fks child_table columns with
      | .error e => .error e
      | .ok here =>
        match find_parent_candidates column_map possible_fks restMap with
        | .error e => .error e
        | .ok tl => .ok (here ++ tl)

/-- Mirror of the third loop of `fetch_schema_family`: both peer names of each
candidate must exist as tables; each candidate registers the pair in both
directions in the `peers` edge list. -/
def add_peer_pairs (mapL : List (String × Schema)) :
    List (String × String × String) → List (String × String) → Except Err (List (String × String))
  | [], peersE => .ok peersE
  | (p1, p2, tname) :: rest, peersE =>
    if (alookup p1 mapL).isNone then .error (.peerTableMissing p1 tname)
    else if (alookup p2 mapL).isNone then .error (.peerTableMissing p2 tname)
    else add_peer_pairs mapL rest ((p2, p1) :: (p1, p2) :: peersE)

/-- Mirror of the fourth loop of `fetch_schema_family`: each parent candidate
registers a child→parent edge and the inverse parent→child edge. -/
def add_parent_edges (mapL : List (String × Schema)) :
    List (String × String × String) → List (String × String) × List (String × String) →
    Except Err (List (String × String) × List (String × String))
  | [], acc => .ok acc
  | (parent_name, child_name, col) :: rest, (parentsE, childrenE) =>
    if (alookup parent_name mapL).isNone then .error (.parentMissing parent_name child_name col)
    else
      add_parent_edges mapL rest
        ((child_name, parent_name) :: parentsE, (parent_name, child_name) :: childrenE)

/-- Mirror of `fetch_schema_family` (sqlite/schema.rs) over the introspected
catalog rows (table name and per-table `PRAGMA table_info` rows, in the
iteration order of the metadata map). -/
def fetch_schema_family (tables : List (String × List RawColumn)) (peer_pfx peer_splitter : String) :
    Except Err SchemaFamily :=
  ebind (extract_schema_metadata tables) (fun schema_metadata =>
    ebind (resolve_tables (schema_metadata.map (fun x => (x.1, x.2.1.pk)))
        (effective_name_part DEFAULT_PEER_PFX peer_pfx)
        (effective_name_part DEFAULT_PEER_SPLITTER peer_splitter)
        schema_metadata ⟨[], [], [], [], []⟩) (fun acc =>
      ebind (find_parent_candidates acc.column_map acc.possible_fks acc.map)
        (fun parent_candidates =>
          ebind (add_peer_pairs acc.map acc.peer_pair_candidates []) (fun peersE =>
            ebind (add_parent_edges acc.map parent_candidates ([], [])) (fun pc =>
              .ok ⟨acc.map, pc.1, pc.2, peersE, acc.peer_tables⟩)))))

/-- Mirror of `standardize_q_config` (sqlite/sql.rs): an empty/whitespace-only
clause standardizes to the empty clause with no parameters; a non-empty clause
is prefixed with the link word. -/
def standardize_q_config (q_config : Option (String × List Val)) (link_word : String) :
    String × List Val :=
  match q_config with
  | some (clause, params) =>
    if trimIsEmpty clause then ("", [])
    else (if link_word.isEmpty then clause else link_word ++ " " ++ clause, params)
  | none => ("", [])

/-- Mirror of `merge_q_configs` (sqlite/sql.rs). -/
def merge_q_configs (q_config1 q_config2 : Option (String × List Val)) (link_word : String) :
    String × List Val :=
  let p1 := standardize_q_config q_config1 ""
  let p2 := standardize_q_config q_config2 link_word
  ("(" ++ p1.1 ++ " " ++ p2.1 ++ ")", p1.2 ++ p2.2)

/-- Mirror of `in_them_clause` (sqlite/sql.rs). -/
def in_them_clause (col_name : String) (col_values : List Val) : String :=
  col_name ++ " IN (" ++ String.intercalate ", " (col_values.map (fun _ => "?")) ++ ")"

/-- Mirror of `in_them` (sqlite/sql.rs). -/
def in_them (col_name : String) (col_values : List Val) : String × List Val :=
  (in_them_clause col_name col_values, col_values)

/-- Mirror of `in_them_and` (sqlite/sql.rs). -/
def in_them_and (col_name : String) (col_values : List Val)
    (q_config : Option (String × List Val)) : String × List Val :=
  merge_q_configs (some (in_them col_name col_values)) q_config "AND"

namespace crud

/-- Mirror of `standardize_q_config` (crud/sql.rs): unlike the sqlite variant,
this one fails on an empty/whitespace-only clause. -/
def standardize_q_config (q_config : Option (String × List Val)) (link_word : String) :
    Except Err (String × List Val) :=
  match q_config with
  | some (clause, params) =>
    if trimIsEmpty clause then .error .emptyClause
    else
      .ok (if link_word.isEmpty then clause else link_word ++ " " ++ clause, params)
  | none => .ok ("", [])

/-- Mirror of `d_all` (crud/del.rs), modelled up to the statement it executes
(the `verify_table_name` guard is unrelated to the emptiness check and is
elided: it never accepts an empty clause either way). -/
def d_all (table_name : String) (where_q_config : String × List Val) : Except Err DbOp :=
  match standardize_q_config (some where_q_config) "WHERE" with
  | .error e => .error e
  | .ok (where_clause, where_params) =>
    .ok (.exec ("DELETE FROM " ++ table_name ++ " " ++ where_clause) where_params)

end crud

/-- Mirror of `del` (sqlite/basics.rs): standardizes the caller-supplied where
configuration with the `WHERE` link word and unconditionally prepares and
executes the resulting DELETE statement — there is no emptiness error path. -/
def del (table_name : String) (where_config : String × List Val) : DbOp :=
  let std := standardize_q_config (some where_config) "WHERE"
  .exec ("DELETE FROM " ++ table_name ++ " " ++ std.1) std.2

/-- Mirror of `update` (sqlite/basics.rs): builds the SET clause from the
payload (in iteration order) and appends the standardized where clause. -/
def basics_update (table_name : String) (input : List (String × Val))
    (where_config : String × List Val) : DbOp :=
  let set_clause := input.map (fun p => p.1 ++ " = ?")
  let set_params := input.map (fun p => p.2)
  let std := standardize_q_config (some where_config) "WHERE"
  .exec ("UPDATE " ++ table_name ++ " SET " ++ String.intercalate ", " set_clause ++ " " ++ std.1)
    (set_params ++ std.2)

/-- Mirror of `get_col_default` inside `get_verified_input` (input_utils.rs). -/
def get_col_default (schema : Schema) (col_name : String) : Val :=
  (alookup col_name schema.defaults).getD .null

/-- Mirror of `verify_required_field_with_value` inside `get_verified_input`:
a required field may not hold an empty value. The source's single boolean
conjunction is written as nested conditionals. -/
def verify_required_field_with_value (schema : Schema) (table field : String) (value : Val) :
    Except Err Unit :=
  if field ∈ schema.required_fields then
    if is_empty value then .error (.requiredButEmpty field table) else .ok ()
  else .ok ()

/-- Mirror of `verify_column_val` (input_utils.rs): the column must be declared
and the value's runtime type must equal the declared type. -/
def verify_column_val (f : SchemaFamily) (table col_name : String) (col_val : Val) :
    Except Err Unit :=
  match f.try_get_schema table with
  | .error e => .error e
  | .ok schema =>
    match alookup col_name schema.types with
    | none => .error (.notDefined col_name table)
    | some t => if col_val.dataType = t then .ok () else .error (.wrongType col_name table)

/-- Value-list check used by `verify_pk` (input_utils.rs): every value must
pass `verify_column_val` for the given column. -/
def verify_vals (f : SchemaFamily) (table col : String) : List Val → Except Err Unit
  | [] => .ok ()
  | v :: rest =>
    match verify_column_val f table col v with
    | .error e => .error e
    | .ok _ => verify_vals f table col rest

/-- Mirror of `verify_pk` (input_utils.rs). -/
def verify_pk (f : SchemaFamily) (table : String) (pk_values : List Val) : Except Err Unit :=
  match f.try_get_schema table with
  | .error e => .error e
  | .ok schema => verify_vals f table schema.pk pk_values

/-- Mirror of `VerifyConf` (input_utils.rs). -/
structure VerifyConf where
  default_if_absent : Bool
  must_have_every_col : Bool

/-- Mirror of the per-payload-field body of the first loop of
`get_verified_input`: unknown-column check, default substitution for an empty
value when `default_if_absent` is set, type check, required-field check;
returns the (possibly substituted) value that is stored. The substitution is
the named helper `gvi_updated_value`. -/
def gvi_updated_value (schema : Schema) (default_if_absent : Bool) (col_name : String)
    (col_val : Val) : Val :=
  if is_empty col_val && default_if_absent then get_col_default schema col_name else col_val

def gvi_check_field (f : SchemaFamily) (schema : Schema) (table : String)
    (default_if_absent : Bool) (col_name : String) (col_val : Val) : Except Err Val :=
  if (alookup col_name schema.types).isNone then .error (.notDefined col_name table)
  else
    match verify_column_val f table col_name
        (gvi_updated_value schema default_if_absent col_name col_val) with
    | .error e => .error e
    | .ok _ =>
      match verify_required_field_with_value schema table col_name
          (gvi_updated_value schema default_if_absent col_name col_val) with
      | .error e => .error e
      | .ok _ => .ok (gvi_updated_value schema default_if_absent col_name col_val)

/-- Mirror of the first loop of `get_verified_input`: each payload field is
checked and inserted into `updated_inputs` (insert = cons, so the lookup sees
the latest binding, like `HashMap::insert`). -/
def gvi_loop (f : SchemaFamily) (schema : Schema) (table : String) (default_if_absent : Bool) :
    List (String × Val) → List (String × Val) → Except Err (List (String × Val))
  | [], updated => .ok updated
  | (c, v) :: rest, updated =>
    match gvi_check_field f schema table default_if_absent c v with
    | .error e => .error e
    | .ok uv => gvi_loop f schema table default_if_absent rest ((c, uv) :: updated)

/-- Mirror of the `must_have_every_col` fill loop of `get_verified_input`:
for every schema column not consumed by the payload, re-run the required-field
check against the column's default and insert the default if the column is
still missing from the result. -/
def gvi_fill (schema : Schema) (table : String) :
    List (String × DbType) → List (String × Val) → Except Err (List (String × Val))
  | [], updated => .ok updated
  | (key, _) :: rest, updated =>
    match verify_required_field_with_value schema table key (get_col_default schema key) with
    | .error e => .error e
    | .ok _ =>
      if (alookup key updated).isSome then gvi_fill schema table rest updated
      else gvi_fill schema table rest ((key, get_col_default schema key) :: updated)

/-- Mirror of `get_verified_input` (input_utils.rs). The source clones
`schema.types` and removes each processed payload key; since that working map
is only read after the whole payload loop, its final content equals the filter
of `schema.types` by keys absent from the payload, which is how the model
computes `col_types_to_check`. -/
def get_verified_input (f : SchemaFamily) (table : String) (input : List (String × Val))
    (config : VerifyConf) : Except Err (List (String × Val)) :=
  match f.try_get_schema table with
  | .error e => .error e
  | .ok schema =>
    match gvi_loop f schema table config.default_if_absent input [] with
    | .error e => .error e
    | .ok updated =>
      let col_types_to_check :=
        schema.types.filter (fun kt => !(input.any (fun p => p.1 = kt.1)))
      if config.must_have_every_col && !col_types_to_check.isEmpty then
        gvi_fill schema table col_types_to_check updated
      else .ok updated

/-- Mirror of `update_all` (sqlite/update.rs): verify the payload in partial
mode, forbid the primary key in the payload, then execute the update. -/
def update_all (f : SchemaFamily) (table : String) (input : List (String × Val))
    (where_config : String × List Val) (default_if_absent : Bool) : Except Err DbOp :=
  match f.try_get_schema table with
  | .error e => .error e
  | .ok schema =>
    match get_verified_input f table input ⟨default_if_absent, false⟩ with
    | .error e => .error e
    | .ok _ =>
      if input.any (fun p => p.1 = schema.pk) then .error (.pkNotUpdatable schema.pk table)
      else .ok (basics_update table input where_config)

/-- Mirror of `FetchConfig` (sqlite/basics.rs); all fields optional, defaults
mirror `Default::default()`. -/
structure FetchConfig where
  is_distinct : Bool := false
  display_cols : Option (List String) := none
  where_config : Option (String × List Val) := none
  order_by : Option String := none
  limit : Option Int := none
  offset : Option Int := none
  group_by : Option String := none
deriving DecidableEq, Repr

/-- Mirror of `ILLEGAL_BY_CHARS` (sqlite/basics.rs); the two brace characters
are written via their code points. -/
def ILLEGAL_BY_CHARS : List Char :=
  ['@', '!', '#', '$', '%', '^', '&', '*', '=', Char.ofNat 123, Char.ofNat 125,
   '[', ']', '<', '>', '~']

/-- Model of Rust `str::contains` for a non-empty literal pattern: the pattern
occurs iff splitting on it yields more than one piece. -/
def contains_pat (s pat : String) : Bool := (strSplitOn s pat).length != 1

/-- Mirror of `contains_illegal_by_chars` (sqlite/basics.rs). -/
def contains_illegal_by_chars (s : String) : Bool :=
  strAnyChar s (fun c => c = Char.ofNat 10 || c = Char.ofNat 13 || c = Char.ofNat 9)
    || contains_pat s "--" || contains_pat s "/*" || contains_pat s "*/"
    || strAnyChar s (fun c => ILLEGAL_BY_CHARS.contains c)

/-- Mirror of `read_with_total` (sqlite/basics.rs), up to the main paginated
SELECT it prepares and executes (returned as a `DbOp.query`); the optional
follow-up COUNT query reuses the same clause and parameters and carries no
extra failure mode, so it is not materialized. Errors are the illegal-character
rejections of the group-by/order-by fragments. -/
def read_with_total (table_name : String) (fetch_config_opt : Option FetchConfig) :
    Except Err DbOp :=
  let fetch_config := fetch_config_opt.getD {}
  let display_fields := fetch_config.display_cols.getD ["*"]
  let distinct_word := if fetch_config.is_distinct then "DISTINCT" else ""
  let sql := "SELECT " ++ distinct_word ++ " " ++ String.intercalate ", " display_fields
    ++ " FROM " ++ table_name
  let group_by :=
    match fetch_config.group_by with
    | some field => " GROUP BY " ++ String.mk (field.data.filter (fun c => !c.isWhitespace))
    | none => ""
  let order_by :=
    match fetch_config.order_by with
    | some field => " ORDER BY " ++ strTrim field
    | none => ""
  let lim :=
    match fetch_config.limit with
    | some l => " LIMIT " ++ toString l
    | none => ""
  let off :=
    match fetch_config.offset with
    | some o => " OFFSET " ++ toString o
    | none => ""
  if contains_illegal_by_chars group_by then .error (.illegalChars group_by)
  else if contains_illegal_by_chars order_by then .error (.illegalChars order_by)
  else
    let std := standardize_q_config (fetch_config_opt.bind (fun cfg => cfg.where_config)) "WHERE"
    .ok (.query (sql ++ " " ++ std.1 ++ group_by ++ order_by ++ lim ++ off) std.2)

/-- Mirror of `verify_cols` (sqlite/read.rs). -/
def verify_cols (schema : Schema) (cols : List String) : Except Err Unit :=
  match schema.find_unknown_field cols with
  | some c => .error (.unknownColumn c schema.name)
  | none => .ok ()

/-- Mirror of `all` (sqlite/read.rs): resolve the schema, verify the caller's
display-column allowlist only when group-by is unset or whitespace-only (the
source comment reads "only verify columns if group_by is not set"), then
delegate to the paged fetch. The `skip_count` flag only toggles the follow-up
COUNT query and is dropped with it. -/
def read_all (f : SchemaFamily) (table : String) (fetch_config_opt : Option FetchConfig) :
    Except Err DbOp :=
  match f.try_get_schema table with
  | .error e => .error e
  | .ok schema =>
    if trimIsEmpty (((fetch_config_opt.getD {}).group_by).getD "") then
      match verify_cols schema ((fetch_config_opt.bind (fun cfg => cfg.display_cols)).getD []) with
      | .error e => .error e
      | .ok _ => read_with_total table fetch_config_opt
    else read_with_total table fetch_config_opt

/-- Mirror of `Vec::dedup` as used in `nn` and `d_all` (sqlite/peer.rs):
removes only CONSECUTIVE duplicate values, keeping the first of each run. -/
def dedup_consec : List Val → List Val
  | [] => []
  | [a] => [a]
  | a :: b :: rest => if a = b then dedup_consec (b :: rest) else a :: dedup_consec (b :: rest)

/-- Junction-table state for the peer-link operations: each row is the pair of
its two foreign-key column values (the columns `nn`/`d_all` match on). -/
abbrev RelTable := List (Val × Val)

/-- Mirror of `nn_link_exists` (sqlite/peer.rs): a COUNT over rows whose two
foreign-key columns equal the pair is positive. -/
def nn_link_exists (t : RelTable) (a_val b_val : Val) : Bool :=
  t.any (fun r => r.1 = a_val && r.2 = b_val)

/-- Number of junction rows for one (a, b) pair. -/
def countPair (t : RelTable) (a_val b_val : Val) : Nat :=
  (t.filter (fun r => r.1 = a_val && r.2 = b_val)).length

/-- Mirror of `nn` (sqlite/peer.rs): dedup (consecutive only) each side, run
ALL existence checks against the state as it was before any insert, then
insert every pair that was missing. -/
def nn (t : RelTable) (a_vals b_vals : List Val) : RelTable :=
  let deduped_a_vals := dedup_consec a_vals
  let deduped_b_vals := dedup_consec b_vals
  let pairs_to_insert :=
    deduped_a_vals.flatMap
      (fun a => (deduped_b_vals.filter (fun b => !nn_link_exists t a b)).map (fun b => (a, b)))
  t ++ pairs_to_insert

/-- Mirror of `d_all` (sqlite/peer.rs): one DELETE per pair of the deduped
(consecutive only) Cartesian product, each removing the matching rows of the
current state. -/
def d_all (t : RelTable) (a_vals b_vals : List Val) : RelTable :=
  (dedup_consec a_vals).foldl
    (fun acc a =>
      (dedup_consec b_vals).foldl
        (fun acc2 b => acc2.filter (fun r => !(r.1 = a && r.2 = b))) acc)
    t

/-- Mirror of `get_2_configs` (sqlite/peer.rs): the input map must hold exactly
two (table, key-list) groups. -/
def get_2_configs (inputs : List (String × List Val)) :
    Except Err ((String × List Val) × (String × List Val)) :=
  match inputs with
  | [a, b] => .ok (a, b)
  | l => .error (.not2Tables l.length)

/-- Modelled from the spec: `get_fk_name` is imported (in sqlite/peer.rs,
sqlite/sql.rs and sqlite/read.rs) from `sqlite::input_utils`, a module whose
file is not present under src/. Section 6 of the spec fixes the convention
that a table's primary key is referenced elsewhere as
`"<table>_<that table's pk column name>"`, so the modelled function resolves
the table's schema and produces that name. -/
def get_fk_name (main_table_name : String) (f : SchemaFamily) : Except Err String :=
  match f.try_get_schema main_table_name with
  | .error e => .error e
  | .ok schema => .ok (main_table_name ++ "_" ++ schema.pk)

/-- Mirror of `link` (sqlite/peer.rs) up to the arguments it passes to `nn`:
the two groups are validated (`verify_peer_of`, `verify_pk` on both sides),
the junction table is resolved via `try_get_peer_link_table_of` on the FIRST
group's table name, and the two foreign-key column names are computed. The
returned plan is (junction table, a column, b column, a values, b values). -/
def link_plan (f : SchemaFamily) (inputs : List (String × List Val)) :
    Except Err (String × String × String × List Val × List Val) :=
  ebind (get_2_configs inputs) (fun cfgs =>
    ebind (f.verify_peer_of cfgs.1.1 cfgs.2.1) (fun _ =>
      ebind (verify_pk f cfgs.1.1 cfgs.1.2) (fun _ =>
        ebind (verify_pk f cfgs.2.1 cfgs.2.2) (fun _ =>
          ebind (f.try_get_peer_link_table_of cfgs.1.1) (fun peer_link_table =>
            ebind (get_fk_name cfgs.1.1 f) (fun a_col =>
              ebind (get_fk_name cfgs.2.1 f) (fun b_col =>
                .ok (peer_link_table, a_col, b_col, cfgs.1.2, cfgs.2.2))))))))

/-- Mirror of `unlink` (sqlite/peer.rs) up to the arguments it passes to
`d_all`; identical validation and junction-table selection as `link`. -/
def unlink_plan (f : SchemaFamily) (inputs : List (String × List Val)) :
    Except Err (String × String × String × List Val × List Val) :=
  link_plan f inputs

/-! ## Concrete fixtures used by witnesses and counterexamples -/

/-- Catalog row with an INTEGER column and a NULL catalog default. -/
def rcInt (n : String) (pk : Bool := false) : RawColumn := ⟨n, "INTEGER", false, .null, pk⟩

/-- Catalog row with a NOT NULL TEXT column and a NULL catalog default. -/
def rcText (n : String) : RawColumn := ⟨n, "TEXT", true, .null, false⟩

/-- The worked example of the spec: song/artist/album with the junction table
`rel_album_song`. -/
def exT : List (String × List RawColumn) :=
  [ ("song", [rcInt "id" true, rcText "name", rcInt "artist_id", rcText "memo"]),
    ("artist", [rcInt "id" true, rcText "name"]),
    ("album", [rcInt "id" true, rcText "name"]),
    ("rel_album_song", [rcInt "album_id", rcInt "song_id"]) ]

/-- The schema family resolved from `exT` (the resolution succeeds, as the
theorems applying it show). -/
def exFam : SchemaFamily := (fetch_schema_family exT "" "").toOption.getD ⟨[], [], [], [], []⟩

/-- The resolved schema of the `song` table of `exFam`. -/
def schemaSong : Schema := (alookup "song" exFam.map).getD ⟨"", "", [], [], []⟩

/-- C3 fixture: a family whose only table has a non-required, non-primary-key
column `foo_id` while no table `foo` exists. -/
def cexT3 : List (String × List RawColumn) :=
  [("song", [⟨"id", "INTEGER", false, Val.null, true⟩,
             ⟨"foo_id", "INTEGER", false, Val.null, false⟩])]

/-- The family resolved from `cexT3`. -/
def fam3 : SchemaFamily := (fetch_schema_family cexT3 "rel" "_").toOption.getD ⟨[], [], [], [], []⟩

/-- The resolved schema of `song` in `fam3`. -/
def schema3 : Schema := (alookup "song" fam3.map).getD ⟨"", "", [], [], []⟩

/-- C9 fixture: a fetch configuration that sets both an unknown display column
and a group-by column. -/
def cfg9 : Option FetchConfig := some { display_cols := some ["nope"], group_by := some "name" }

/-- C2 fixture: a table whose name starts with the prefix `rel` but NOT with
prefix-then-splitter `rel_`. -/
def cexT2 : List (String × List RawColumn) :=
  [("b", [rcInt "id" true]), ("c", [rcInt "id" true]),
   ("rela_b_c", [rcInt "b_id", rcInt "c_id"])]

/-- The family resolved from `cexT2`. -/
def fam2 : SchemaFamily := (fetch_schema_family cexT2 "rel" "_").toOption.getD ⟨[], [], [], [], []⟩

/-- C10 fixture: table `a` participates in peer relationships through two
distinct junction tables, `rel_a_b` and `rel_a_c`. -/
def exT10 : List (String × List RawColumn) :=
  [ ("a", [rcInt "id" true]), ("b", [rcInt "id" true]), ("c", [rcInt "id" true]),
    ("rel_a_b", [rcInt "a_id", rcInt "b_id"]),
    ("rel_a_c", [rcInt "a_id", rcInt "c_id"]) ]

/-- The family resolved from `exT10`. -/
def fam10 : SchemaFamily := (fetch_schema_family exT10 "" "").toOption.getD ⟨[], [], [], [], []⟩

/-- The plan `link` computes for linking a with b in `fam10`. -/
def pl10b : String × String × String × List Val × List Val :=
  (link_plan fam10 [("a", [Val.integer 1]), ("b", [Val.integer 1])]).toOption.getD
    ("", "", "", [], [])

/-- The plan `link` computes for linking a with c in `fam10`. -/
def pl10c : String × String × String × List Val × List Val :=
  (link_plan fam10 [("a", [Val.integer 1]), ("c", [Val.integer 1])]).toOption.getD
    ("", "", "", [], [])


/-! ## C5 -/

/-- C5: the claim states that an empty or whitespace-only where clause
supplied where a non-empty clause is required yields a query-building error
and no unconditional DELETE or UPDATE runs. The crud variant of
`standardize_q_config` does exactly that, but `sqlite::basics::del` —
whose own documentation says the clause "cannot contain empty clause ... to
reduce the chance of unwanted deletions" — silently standardizes the
whitespace-only clause away and executes `DELETE FROM song` with no WHERE
clause at all. -/
theorem del_empty_clause_executes_unconditional :
    del "song" ("   ", [Val.integer 1]) = DbOp.exec "DELETE FROM song " [] ∧
    basics_update "song" [("name", Val.text "x")] ("   ", [Val.integer 1]) =
      DbOp.exec "UPDATE song SET name = ? " [Val.text "x"] ∧
    crud.standardize_q_config (some ("   ", [Val.integer 1])) "WHERE" = .error .emptyClause ∧
    crud.d_all "song" ("   ", [Val.integer 1]) = .error .emptyClause := by
  refine ⟨rfl, rfl, rfl, rfl⟩

/-! ## C7 -/

lemma normalize_default_ne_null (raw : Val) (ct : DbType) (h : ct ≠ DbType.null) :
    normalize_default raw ct ≠ Val.null := by
  unfold normalize_default
  cases raw with
  | text t =>
    by_cases hc : (t.isEmpty || t = squotes || t = dquotes) = true
    · simp [hc]
    · simp [hc]
  | null => cases ct <;> simp [get_default_db_value] at h ⊢
  | integer i => simp
  | real r => simp
  | blob b => simp

lemma get_columns_meta_ok_mem (table : String) :
    ∀ rows metas, get_columns_meta table rows = .ok metas →
      ∀ m ∈ metas, m.col_type ≠ DbType.null ∧ m.dflt ≠ Val.null := by
  intro rows
  induction rows with
  | nil =>
    intro metas h m hm
    simp only [get_columns_meta] at h
    cases h
    simp at hm
  | cons r rest ih =>
    intro metas h m hm
    simp only [get_columns_meta] at h
    by_cases ht : get_type_from_str r.decl_type = DbType.null
    · rw [if_pos ht] at h
      cases h
    · rw [if_neg ht] at h
      cases hrec : get_columns_meta table rest with
      | error e => rw [hrec] at h; cases h
      | ok ms =>
        rw [hrec] at h
        cases h
        rcases List.mem_cons.mp hm with hm | hm
        · subst hm
          exact ⟨ht, normalize_default_ne_null _ _ ht⟩
        · exact ih ms hrec m hm

lemma get_columns_meta_bad_type_fails (table : String) :
    ∀ rows, (∃ r ∈ rows, get_type_from_str r.decl_type = DbType.null) →
      ∃ bad ∈ rows, get_type_from_str bad.decl_type = DbType.null ∧
        get_columns_meta table rows = .error (.invalidType bad.name table) := by
  intro rows
  induction rows with
  | nil => rintro ⟨r, hr, -⟩; simp at hr
  | cons r rest ih =>
    rintro ⟨r0, hr0, hbad⟩
    by_cases ht : get_type_from_str r.decl_type = DbType.null
    · exact ⟨r, List.mem_cons_self .., ht, by simp only [get_columns_meta]; rw [if_pos ht]⟩
    · have hr0rest : r0 ∈ rest := by
        rcases List.mem_cons.mp hr0 with h | h
        · subst h; exact absurd hbad ht
        · exact h
      obtain ⟨bad, hmem, hbadty, heq⟩ := ih ⟨r0, hr0rest, hbad⟩
      refine ⟨bad, List.mem_cons_of_mem _ hmem, hbadty, ?_⟩
      simp only [get_columns_meta]
      rw [if_neg ht, heq]

/-- C7: for every column returned by `get_columns_meta`, the declared type is
one of the four known primitives and the recorded default is never the `Null`
variant; and when some catalog row's declared type maps to none of the four
primitives, the whole call fails with an error naming that column and the
table. -/
theorem get_columns_meta_types_and_defaults (table : String) (rows : List RawColumn) :
    (∀ metas, get_columns_meta table rows = .ok metas →
      ∀ m ∈ metas,
        (m.col_type = DbType.integer ∨ m.col_type = DbType.real ∨
          m.col_type = DbType.text ∨ m.col_type = DbType.blob) ∧ m.dflt ≠ Val.null) ∧
    ((∃ r ∈ rows, get_type_from_str r.decl_type = DbType.null) →
      ∃ bad ∈ rows, get_type_from_str bad.decl_type = DbType.null ∧
        get_columns_meta table rows = .error (.invalidType bad.name table)) := by
  constructor
  · intro metas h m hm
    obtain ⟨hty, hd⟩ := get_columns_meta_ok_mem table rows metas h m hm
    refine ⟨?_, hd⟩
    cases hmt : m.col_type <;> simp_all
  · exact get_columns_meta_bad_type_fails table rows

/-- C7 witness: the theorem applied to the `song` table rows of the example
family, evaluated at its first returned column. -/
theorem get_columns_meta_types_and_defaults_witness :
    (⟨"id", DbType.integer, false, Val.integer 0, true⟩ : ColumnMeta).dflt ≠ Val.null := by
  exact ((get_columns_meta_types_and_defaults "song" [rcInt "id" true]).1
    [⟨"id", DbType.integer, false, Val.integer 0, true⟩] (by rfl)
    ⟨"id", DbType.integer, false, Val.integer 0, true⟩ (by simp)).2

/-! ## C3 -/

lemma cmits_req_mem (cols : List ColumnMeta) :
    ∀ (acc : Schema) (c : String),
      c ∈ (cols.foldl cmits_step acc).required_fields ↔
        c ∈ acc.required_fields ∨ ∃ m ∈ cols, m.name = c ∧
          (m.is_required = true ∨ m.is_pk = true ∨ strEndsWith m.name "_id" = true) := by
  induction cols with
  | nil => intro acc c; simp
  | cons m rest ih =>
    intro acc c
    rw [List.foldl_cons, ih]
    by_cases h : (m.is_required || m.is_pk || strEndsWith m.name "_id") = true
    · have hd : (m.is_required = true ∨ m.is_pk = true ∨ strEndsWith m.name "_id" = true) := by
        simp only [Bool.or_eq_true] at h
        tauto
      simp only [cmits_step, h, if_true, List.mem_cons, List.mem_cons]
      constructor
      · rintro ((rfl | hacc) | ⟨m', hm', rfl, hp⟩)
        · exact Or.inr ⟨m, Or.inl rfl, rfl, hd⟩
        · exact Or.inl hacc
        · exact Or.inr ⟨m', Or.inr hm', rfl, hp⟩
      · rintro (hacc | ⟨m', (rfl | hm'), rfl, hp⟩)
        · exact Or.inl (Or.inr hacc)
        · exact Or.inl (Or.inl rfl)
        · exact Or.inr ⟨m', hm', rfl, hp⟩
    · have hd : ¬(m.is_required = true ∨ m.is_pk = true ∨ strEndsWith m.name "_id" = true) := by
        simp only [Bool.or_eq_true] at h
        tauto
      simp only [cmits_step, h, if_false, List.mem_cons]
      constructor
      · rintro (hacc | ⟨m', hm', rfl, hp⟩)
        · exact Or.inl hacc
        · exact Or.inr ⟨m', Or.inr hm', rfl, hp⟩
      · rintro (hacc | ⟨m', (rfl | hm'), rfl, hp⟩)
        · exact Or.inl hacc
        · exact absurd hp hd
        · exact Or.inr ⟨m', hm', rfl, hp⟩

/-- C3 (amended): `required_fields` of a schema built from column metadata
contains exactly the columns that are explicitly marked required, are the
primary key, or whose name ends with the literal suffix `"_id"` — independent
of which parent tables exist in the family and of their primary-key names. -/
theorem required_fields_characterization (table_name : String) (cols : List ColumnMeta)
    (c : String) :
    c ∈ (column_meta_items_to_schema table_name cols).required_fields ↔
      ∃ m ∈ cols, m.name = c ∧
        (m.is_required = true ∨ m.is_pk = true ∨ strEndsWith m.name "_id" = true) := by
  unfold column_meta_items_to_schema
  rw [cmits_req_mem]
  simp

/-- C3 counterexample: the resolution succeeds and `foo_id` lands in
`required_fields` of `song`, although it is not the primary key (`id` is), the
catalog marked it nullable, and the family contains no table `foo` — the only
table is `song`, so the only column name following the claim's foreign-key
convention `<parent>_<parent_pk>` would be `song_id`, which `foo_id` is not. -/
theorem required_fields_id_suffix_cex :
    fetch_schema_family cexT3 "rel" "_" = .ok fam3 ∧
    "foo_id" ∈ schema3.required_fields ∧
    schema3.pk = "id" ∧
    fam3.map.map Prod.fst = ["song"] ∧
    ("foo_id" ≠ "song" ++ "_" ++ schema3.pk) ∧
    cexT3 = [("song", [⟨"id", "INTEGER", false, Val.null, true⟩,
                       ⟨"foo_id", "INTEGER", false, Val.null, false⟩])] := by
  refine ⟨rfl, by decide, rfl, rfl, by decide, rfl⟩

/-! ## C9 -/

/-- C9 (amended): when the fetch configuration's group-by is unset or
whitespace-only, a display-column allowlist containing a column undeclared in
the table's schema makes `all` return the unknown-column error naming that
column, and no fetch statement is produced. (The counterexample shows the
check is skipped when group-by is set.) -/
theorem read_all_unknown_column_rejected (f : SchemaFamily) (table : String) (schema : Schema)
    (cfg : Option FetchConfig) (c : String)
    (hs : alookup table f.map = some schema)
    (hg : trimIsEmpty (((cfg.getD {}).group_by).getD "") = true)
    (hc : schema.find_unknown_field ((cfg.bind (fun x => x.display_cols)).getD []) = some c) :
    read_all f table cfg = .error (.unknownColumn c schema.name) := by
  unfold read_all SchemaFamily.try_get_schema
  rw [hs, hg]
  simp only [if_true, verify_cols, hc]

/-- C9 witness: the amended theorem applied to the example family with the
unknown display column `nope` and no group-by. -/
theorem read_all_unknown_column_rejected_witness :
    read_all exFam "song" (some { display_cols := some ["nope"] }) =
      .error (.unknownColumn "nope" schemaSong.name) :=
  read_all_unknown_column_rejected exFam "song" schemaSong
    (some { display_cols := some ["nope"] }) "nope" (by rfl) (by rfl) (by rfl)

/-- C9 counterexample: the claim demands the unknown-column error for every
fetch configuration, including ones that set group-by; but with group-by set,
`all` skips the allowlist validation (source comment: "only verify columns if
group_by is not set") and the call succeeds, producing the fetch statement. -/
theorem read_all_groupby_skips_column_check_cex :
    alookup "nope" schemaSong.types = none ∧
    (cfg9.bind (fun x => x.display_cols)).getD [] = ["nope"] ∧
    (read_all exFam "song" cfg9).toOption.isSome = true := by
  refine ⟨by decide, rfl, by decide⟩

/-! ## C8 -/

/-- C8: an update payload that contains the table's primary-key column is
always rejected — `update_all` returns an error and never reaches the UPDATE
statement — and whenever the payload passes verification the error is the
dedicated one naming the primary key and the table. -/
theorem update_all_rejects_pk_payload (f : SchemaFamily) (table : String) (schema : Schema)
    (input : List (String × Val)) (wc : String × List Val) (dia : Bool)
    (hs : alookup table f.map = some schema)
    (hpk : input.any (fun p => p.1 = schema.pk) = true) :
    (∃ e, update_all f table input wc dia = .error e) ∧
    (∀ r, get_verified_input f table input ⟨dia, false⟩ = .ok r →
      update_all f table input wc dia = .error (.pkNotUpdatable schema.pk table)) := by
  constructor
  · unfold update_all SchemaFamily.try_get_schema
    rw [hs]
    cases hv : get_verified_input f table input ⟨dia, false⟩ with
    | error e => exact ⟨e, rfl⟩
    | ok r =>
      simp only [hpk, if_true]
      exact ⟨.pkNotUpdatable schema.pk table, rfl⟩
  · intro r hv
    unfold update_all SchemaFamily.try_get_schema
    rw [hs, hv]
    simp only [hpk, if_true]

/-- C8 witness: updating `song` with a payload carrying the primary key `id`
is rejected with the dedicated error. -/
theorem update_all_rejects_pk_payload_witness :
    update_all exFam "song" [("id", Val.integer 1)] ("name = ?", [Val.text "x"]) true =
      .error (.pkNotUpdatable schemaSong.pk "song") :=
  (update_all_rejects_pk_payload exFam "song" schemaSong [("id", Val.integer 1)]
    ("name = ?", [Val.text "x"]) true (by rfl) (by decide)).2
    [("id", Val.integer 1)] (by rfl)

/-! ## C6 -/

lemma mem_dedup_consec (x : Val) : ∀ l : List Val, x ∈ dedup_consec l ↔ x ∈ l := by
  intro l
  induction l with
  | nil => simp [dedup_consec]
  | cons a rest ih =>
    cases rest with
    | nil => simp [dedup_consec]
    | cons b rest2 =>
      by_cases h : a = b
      · subst h
        rw [dedup_consec, if_pos rfl, ih]
        simp
      · rw [dedup_consec, if_neg h]
        simp only [List.mem_cons] at ih ⊢
        rw [ih]

lemma dedup_consec_of_nodup : ∀ l : List Val, l.Nodup → dedup_consec l = l := by
  intro l
  induction l with
  | nil => intro; rfl
  | cons a rest ih =>
    intro hnd
    cases rest with
    | nil => rfl
    | cons b rest2 =>
      have hab : a ≠ b := by
        intro h
        exact (List.nodup_cons.mp hnd).1 (h ▸ List.mem_cons_self ..)
      rw [dedup_consec, if_neg hab, ih (List.nodup_cons.mp hnd).2]

lemma countPair_append (t1 t2 : RelTable) (a b : Val) :
    countPair (t1 ++ t2) a b = countPair t1 a b + countPair t2 a b := by
  simp [countPair, List.filter_append]

lemma nn_link_exists_iff_mem (t : RelTable) (a b : Val) :
    nn_link_exists t a b = true ↔ (a, b) ∈ t := by
  simp only [nn_link_exists, List.any_eq_true, Bool.and_eq_true, decide_eq_true_eq]
  constructor
  · rintro ⟨⟨x, y⟩, hmem, rfl, rfl⟩; exact hmem
  · intro hmem; exact ⟨(a, b), hmem, rfl, rfl⟩

lemma countPair_eq_zero_iff (t : RelTable) (a b : Val) :
    countPair t a b = 0 ↔ (a, b) ∉ t := by
  simp only [countPair, List.length_eq_zero, List.filter_eq_nil_iff, Bool.and_eq_true,
    decide_eq_true_eq, not_and]
  constructor
  · intro h hmem
    exact h (a, b) hmem rfl rfl
  · rintro h ⟨x, y⟩ hmem rfl rfl
    exact h hmem

lemma countPair_map_snd (a0 : Val) (l : List Val) (a b : Val) :
    countPair (l.map (fun b' => (a0, b'))) a b =
      if a0 = a then (l.filter (fun b' => b' = b)).length else 0 := by
  simp only [countPair, ← List.countP_eq_length_filter, List.countP_map]
  by_cases ha : a0 = a
  · subst ha
    rw [if_pos rfl]
    congr 1
    funext b2
    simp [Function.comp]
  · rw [if_neg ha]
    apply List.countP_eq_zero.mpr
    intro y hy
    simp only [Function.comp_apply, Bool.and_eq_true, decide_eq_true_eq, not_and]
    intro h
    exact absurd h ha

lemma countPair_flatMap_blocks (q : Val → Val → Bool) (lb : List Val) (a b : Val) :
    ∀ la : List Val, a ∉ la →
      countPair (la.flatMap (fun a' => ((lb.filter (q a')).map (fun b' => (a', b'))))) a b = 0 := by
  intro la
  induction la with
  | nil => intro; simp [countPair]
  | cons a0 rest ih =>
    intro hnot
    have h1 : a0 ≠ a := by
      intro h
      exact hnot (h ▸ List.mem_cons_self a0 rest)
    have h2 : a ∉ rest := fun h => hnot (List.mem_cons_of_mem _ h)
    rw [List.flatMap_cons, countPair_append, countPair_map_snd, if_neg h1, ih h2]

lemma filter_eq_singleton_length (b : Val) :
    ∀ l : List Val, l.Nodup → b ∈ l → (l.filter (fun x => x = b)).length = 1 := by
  intro l
  induction l with
  | nil => simp
  | cons x rest ih =>
    intro hnd hmem
    rcases List.nodup_cons.mp hnd with ⟨hnotin, hnd2⟩
    by_cases hx : x = b
    · subst hx
      have hzero : rest.filter (fun y => y = x) = [] := by
        apply List.filter_eq_nil_iff.mpr
        intro y hy
        simp only [decide_eq_true_eq]
        intro h
        subst h
        exact hnotin hy
      simp [List.filter_cons, hzero]
    · have hb : b ∈ rest := by
        rcases List.mem_cons.mp hmem with h | h
        · exact absurd h.symm hx
        · exact h
      simp [List.filter_cons, hx, ih hnd2 hb]

/-- C6 counterexample: `Vec::dedup` removes only consecutive duplicates and all
existence checks run before any insert, so one `link`-level `nn` call with the
non-adjacent duplicate list [1, 2, 1] against [1] inserts the pair (1, 1)
twice — the claim's "exactly one junction-table row" fails inside one call. -/
theorem nn_nonadjacent_duplicates_cex :
    dedup_consec [Val.integer 1, Val.integer 2, Val.integer 1] =
      [Val.integer 1, Val.integer 2, Val.integer 1] ∧
    countPair (nn [] [Val.integer 1, Val.integer 2, Val.integer 1] [Val.integer 1])
      (Val.integer 1) (Val.integer 1) = 2 := by
  refine ⟨rfl, rfl⟩

lemma nn_link_exists_after_nn (t : RelTable) (avs bvs : List Val) (a b : Val)
    (ha : a ∈ dedup_consec avs) (hb : b ∈ dedup_consec bvs) :
    nn_link_exists (nn t avs bvs) a b = true := by
  rw [nn_link_exists_iff_mem]
  show (a, b) ∈ t ++ _
  by_cases h : nn_link_exists t a b = true
  · exact List.mem_append_left _ ((nn_link_exists_iff_mem t a b).mp h)
  · apply List.mem_append_right
    apply List.mem_flatMap.mpr
    refine ⟨a, ha, ?_⟩
    apply List.mem_map.mpr
    refine ⟨b, ?_, rfl⟩
    apply List.mem_filter.mpr
    refine ⟨hb, ?_⟩
    simp only [Bool.not_eq_true] at h
    simp [h]

lemma nn_idem (t : RelTable) (avs bvs : List Val) :
    nn (nn t avs bvs) avs bvs = nn t avs bvs := by
  have hpairs : (dedup_consec avs).flatMap
      (fun x => ((dedup_consec bvs).filter
        (fun y => !nn_link_exists (nn t avs bvs) x y)).map (fun y => (x, y))) = [] := by
    apply List.eq_nil_iff_forall_not_mem.mpr
    rintro ⟨x, y⟩ hmem
    obtain ⟨x0, hx0, hmap⟩ := List.mem_flatMap.mp hmem
    obtain ⟨y0, hy0, heq⟩ := List.mem_map.mp hmap
    obtain ⟨hy0mem, hy0f⟩ := List.mem_filter.mp hy0
    rw [nn_link_exists_after_nn t avs bvs x0 y0 hx0 hy0mem] at hy0f
    simp at hy0f
  calc nn (nn t avs bvs) avs bvs
      = nn t avs bvs ++ (dedup_consec avs).flatMap
        (fun x => ((dedup_consec bvs).filter
          (fun y => !nn_link_exists (nn t avs bvs) x y)).map (fun y => (x, y))) := rfl
    _ = nn t avs bvs := by rw [hpairs, List.append_nil]

lemma countPair_flatMap_mem (q : Val → Val → Bool) (lb : List Val) (a b : Val) :
    ∀ la : List Val, la.Nodup → a ∈ la →
      countPair (la.flatMap (fun x => ((lb.filter (q x)).map (fun y => (x, y))))) a b
        = ((lb.filter (q a)).filter (fun y => y = b)).length := by
  intro la
  induction la with
  | nil => intro _ h; simp at h
  | cons a0 rest ih =>
    intro hnd hmem
    rcases List.nodup_cons.mp hnd with ⟨hnotin, hnd2⟩
    rw [List.flatMap_cons, countPair_append, countPair_map_snd]
    by_cases ha : a0 = a
    · subst ha
      rw [if_pos rfl, countPair_flatMap_blocks q lb a0 b rest hnotin]
      omega
    · rw [if_neg ha]
      have hb : a ∈ rest := by
        rcases List.mem_cons.mp hmem with h | h
        · exact absurd h.symm ha
        · exact h
      rw [ih hnd2 hb]
      omega

lemma nn_insert_once (t : RelTable) (avs bvs : List Val) (a b : Val)
    (h1 : avs.Nodup) (h2 : bvs.Nodup) (ha : a ∈ avs) (hb : b ∈ bvs)
    (h0 : countPair t a b = 0) : countPair (nn t avs bvs) a b = 1 := by
  have hda := dedup_consec_of_nodup avs h1
  have hdb := dedup_consec_of_nodup bvs h2
  have hnn : nn t avs bvs = t ++ avs.flatMap
      (fun x => ((bvs.filter (fun y => !nn_link_exists t x y)).map (fun y => (x, y)))) := by
    show t ++ _ = t ++ _
    rw [hda, hdb]
  rw [hnn, countPair_append, h0, Nat.zero_add,
    countPair_flatMap_mem (fun x y => !nn_link_exists t x y) bvs a b avs h1 ha]
  apply filter_eq_singleton_length
  · exact List.Nodup.filter _ h2
  · apply List.mem_filter.mpr
    refine ⟨hb, ?_⟩
    have : nn_link_exists t a b = false := by
      cases hterm : nn_link_exists t a b with
      | false => rfl
      | true =>
        exfalso
        exact (countPair_eq_zero_iff t a b).mp h0 ((nn_link_exists_iff_mem t a b).mp hterm)
    simp [this]

lemma d_all_single_noop (t : RelTable) (a b : Val) (h0 : countPair t a b = 0) :
    d_all t [a] [b] = t := by
  have hnotmem := (countPair_eq_zero_iff t a b).mp h0
  show t.filter (fun r => !(r.1 = a && r.2 = b)) = t
  apply List.filter_eq_self.mpr
  intro r hr
  by_cases hr1 : r.1 = a
  · by_cases hr2 : r.2 = b
    · exfalso
      apply hnotmem
      have : r = (a, b) := by
        cases r
        simp only at hr1 hr2
        rw [hr1, hr2]
      exact this ▸ hr
    · simp [hr2]
  · simp [hr1]

/-- C6 (amended): linking the same peer pair by a second `nn` call inserts
nothing (full idempotence across successive calls, because every pair of the
deduplicated Cartesian product exists after the first call); within ONE call,
only consecutive duplicates are removed, so with duplicate-free input lists a
missing pair is inserted exactly once (but non-adjacent duplicates can insert
the same pair twice, as the counterexample shows); and unlinking a pair that
has no junction row (`d_all`) succeeds and leaves the table unchanged. -/
theorem link_unlink_idempotence (t : RelTable) (avs bvs : List Val) (a b : Val) :
    nn (nn t avs bvs) avs bvs = nn t avs bvs ∧
    (avs.Nodup → bvs.Nodup → a ∈ avs → b ∈ bvs → countPair t a b = 0 →
      countPair (nn t avs bvs) a b = 1) ∧
    (countPair t a b = 0 → d_all t [a] [b] = t) :=
  ⟨nn_idem t avs bvs,
   fun h1 h2 ha hb h0 => nn_insert_once t avs bvs a b h1 h2 ha hb h0,
   fun h0 => d_all_single_noop t a b h0⟩

/-- C6 witness: linking the fresh pair (1, 2) once leaves exactly one row. -/
theorem link_unlink_idempotence_witness :
    countPair (nn [] [Val.integer 1] [Val.integer 2]) (Val.integer 1) (Val.integer 2) = 1 :=
  (link_unlink_idempotence [] [Val.integer 1] [Val.integer 2] (Val.integer 1)
    (Val.integer 2)).2.1 (by decide) (by decide) (by decide) (by decide) (by decide)

/-! ## C4 -/

lemma verify_required_ok_iff (schema : Schema) (table field : String) (value : Val) :
    verify_required_field_with_value schema table field value = .ok () ↔
      ¬(field ∈ schema.required_fields ∧ is_empty value = true) := by
  unfold verify_required_field_with_value
  by_cases h1 : field ∈ schema.required_fields
  · rw [if_pos h1]
    by_cases h2 : is_empty value = true
    · simp [h2, h1]
    · simp [h2, h1]
  · rw [if_neg h1]
    simp [h1]

lemma gvi_check_field_ok (f : SchemaFamily) (schema : Schema) (table : String) (dia : Bool)
    (c : String) (v uv : Val) (h : gvi_check_field f schema table dia c v = .ok uv) :
    uv = gvi_updated_value schema dia c v ∧
    (alookup c schema.types).isSome = true ∧
    verify_required_field_with_value schema table c uv = .ok () := by
  unfold gvi_check_field at h
  by_cases h1 : (alookup c schema.types).isNone
  · rw [if_pos h1] at h; cases h
  · rw [if_neg h1] at h
    cases hv : verify_column_val f table c (gvi_updated_value schema dia c v) with
    | error e => rw [hv] at h; cases h
    | ok u =>
      rw [hv] at h
      cases hr : verify_required_field_with_value schema table c
          (gvi_updated_value schema dia c v) with
      | error e => rw [hr] at h; cases h
      | ok u2 =>
        rw [hr] at h
        cases h
        refine ⟨rfl, ?_, ?_⟩
        · cases halo : alookup c schema.types with
          | none => rw [halo] at h1; simp at h1
          | some t => rfl
        · cases u2
          exact hr

lemma gvi_loop_lookup_isSome_mono (f : SchemaFamily) (schema : Schema) (table : String)
    (dia : Bool) :
    ∀ fields acc out, gvi_loop f schema table dia fields acc = .ok out →
      ∀ c, (alookup c acc).isSome = true → (alookup c out).isSome = true := by
  intro fields
  induction fields with
  | nil =>
    intro acc out h c hc
    cases h
    exact hc
  | cons p rest ih =>
    intro acc out h c hc
    obtain ⟨c0, v0⟩ := p
    simp only [gvi_loop] at h
    cases hchk : gvi_check_field f schema table dia c0 v0 with
    | error e => rw [hchk] at h; cases h
    | ok uv =>
      rw [hchk] at h
      apply ih _ _ h
      simp only [alookup]
      by_cases he : c0 = c
      · rw [if_pos he]; rfl
      · rw [if_neg he]; exact hc

lemma gvi_loop_lookup_ok (f : SchemaFamily) (schema : Schema) (table : String) (dia : Bool) :
    ∀ fields acc out, gvi_loop f schema table dia fields acc = .ok out →
      ∀ c uv, alookup c out = some uv →
        alookup c acc = some uv ∨ ∃ v, gvi_check_field f schema table dia c v = .ok uv := by
  intro fields
  induction fields with
  | nil =>
    intro acc out h c uv hout
    cases h
    exact Or.inl hout
  | cons p rest ih =>
    intro acc out h c uv hout
    obtain ⟨c0, v0⟩ := p
    simp only [gvi_loop] at h
    cases hchk : gvi_check_field f schema table dia c0 v0 with
    | error e => rw [hchk] at h; cases h
    | ok uv0 =>
      rw [hchk] at h
      rcases ih _ _ h c uv hout with hacc | hfound
      · simp only [alookup] at hacc
        by_cases he : c0 = c
        · rw [if_pos he] at hacc
          cases hacc
          exact Or.inr ⟨v0, he ▸ hchk⟩
        · rw [if_neg he] at hacc
          exact Or.inl hacc
      · exact Or.inr hfound

lemma gvi_loop_covers (f : SchemaFamily) (schema : Schema) (table : String) (dia : Bool) :
    ∀ fields acc out, gvi_loop f schema table dia fields acc = .ok out →
      ∀ c, fields.any (fun p => p.1 = c) = true → (alookup c out).isSome = true := by
  intro fields
  induction fields with
  | nil =>
    intro acc out h c hc
    simp at hc
  | cons p rest ih =>
    intro acc out h c hc
    obtain ⟨c0, v0⟩ := p
    simp only [gvi_loop] at h
    cases hchk : gvi_check_field f schema table dia c0 v0 with
    | error e => rw [hchk] at h; cases h
    | ok uv0 =>
      rw [hchk] at h
      by_cases he : c0 = c
      · apply gvi_loop_lookup_isSome_mono f schema table dia rest _ _ h
        simp only [alookup, if_pos he]
        rfl
      · apply ih _ _ h
        simp only [List.any_cons, Bool.or_eq_true, decide_eq_true_eq] at hc
        rcases hc with hc | hc
        · exact absurd hc he
        · simpa using hc

lemma gvi_loop_untouched (f : SchemaFamily) (schema : Schema) (table : String) (dia : Bool) :
    ∀ fields acc out, gvi_loop f schema table dia fields acc = .ok out →
      ∀ c, fields.any (fun p => p.1 = c) = false → alookup c out = alookup c acc := by
  intro fields
  induction fields with
  | nil =>
    intro acc out h c _
    cases h
    rfl
  | cons p rest ih =>
    intro acc out h c hc
    obtain ⟨c0, v0⟩ := p
    simp only [gvi_loop] at h
    cases hchk : gvi_check_field f schema table dia c0 v0 with
    | error e => rw [hchk] at h; cases h
    | ok uv0 =>
      rw [hchk] at h
      simp only [List.any_cons, Bool.or_eq_false_iff, decide_eq_false_iff_not] at hc
      rw [ih _ _ h c (by simpa using hc.2)]
      simp only [alookup, if_neg hc.1]

lemma gvi_loop_total (f : SchemaFamily) (schema : Schema) (table : String) (dia : Bool) :
    ∀ fields acc,
      (∀ p ∈ fields, ∃ uv, gvi_check_field f schema table dia p.1 p.2 = .ok uv) →
      ∃ out, gvi_loop f schema table dia fields acc = .ok out := by
  intro fields
  induction fields with
  | nil => intro acc _; exact ⟨acc, rfl⟩
  | cons p rest ih =>
    intro acc hall
    obtain ⟨c0, v0⟩ := p
    obtain ⟨uv, huv⟩ := hall (c0, v0) (List.mem_cons_self ..)
    obtain ⟨out, hout⟩ := ih ((c0, uv) :: acc) (fun q hq => hall q (List.mem_cons_of_mem _ hq))
    exact ⟨out, by simp only [gvi_loop]; rw [huv]; exact hout⟩

lemma gvi_fill_preserves (schema : Schema) (table : String) :
    ∀ tc updated out, gvi_fill schema table tc updated = .ok out →
      ∀ c v, alookup c updated = some v → alookup c out = some v := by
  intro tc
  induction tc with
  | nil =>
    intro updated out h c v hc
    cases h
    exact hc
  | cons kt rest ih =>
    intro updated out h c v hc
    obtain ⟨k0, ty0⟩ := kt
    simp only [gvi_fill] at h
    cases hreq : verify_required_field_with_value schema table k0 (get_col_default schema k0) with
    | error e => rw [hreq] at h; cases h
    | ok u =>
      rw [hreq] at h
      by_cases hk : (alookup k0 updated).isSome = true
      · rw [if_pos hk] at h
        exact ih _ _ h c v hc
      · rw [if_neg hk] at h
        apply ih _ _ h
        simp only [alookup]
        by_cases he : k0 = c
        · subst he
          rw [hc] at hk
          simp at hk
        · rw [if_neg he]
          exact hc

lemma gvi_fill_required_ok (schema : Schema) (table : String) :
    ∀ tc updated out, gvi_fill schema table tc updated = .ok out →
      ∀ k ty, (k, ty) ∈ tc →
        verify_required_field_with_value schema table k (get_col_default schema k) = .ok () := by
  intro tc
  induction tc with
  | nil =>
    intro updated out _ k ty hmem
    simp at hmem
  | cons kt rest ih =>
    intro updated out h k ty hmem
    obtain ⟨k0, ty0⟩ := kt
    simp only [gvi_fill] at h
    cases hreq : verify_required_field_with_value schema table k0 (get_col_default schema k0) with
    | error e => rw [hreq] at h; cases h
    | ok u =>
      rw [hreq] at h
      rcases List.mem_cons.mp hmem with heq | hmem2
      · cases heq
        cases u
        exact hreq
      · by_cases hk : (alookup k0 updated).isSome = true
        · rw [if_pos hk] at h
          exact ih _ _ h k ty hmem2
        · rw [if_neg hk] at h
          exact ih _ _ h k ty hmem2

lemma gvi_fill_fills (schema : Schema) (table : String) :
    ∀ tc updated out, gvi_fill schema table tc updated = .ok out →
      ∀ k ty, (k, ty) ∈ tc → alookup k updated = none →
        alookup k out = some (get_col_default schema k) := by
  intro tc
  induction tc with
  | nil =>
    intro updated out _ k ty hmem
    simp at hmem
  | cons kt rest ih =>
    intro updated out h k ty hmem hnone
    obtain ⟨k0, ty0⟩ := kt
    simp only [gvi_fill] at h
    cases hreq : verify_required_field_with_value schema table k0 (get_col_default schema k0) with
    | error e => rw [hreq] at h; cases h
    | ok u =>
      rw [hreq] at h
      by_cases he : k = k0
      · subst he
        rw [hnone] at h
        simp only [Option.isSome_none, Bool.false_eq_true, if_false] at h
        apply gvi_fill_preserves schema table rest _ _ h
        simp [alookup]
      · have hmem2 : (k, ty) ∈ rest := by
          rcases List.mem_cons.mp hmem with heq | hm
          · cases heq; exact absurd rfl he
          · exact hm
        by_cases hk : (alookup k0 updated).isSome = true
        · rw [if_pos hk] at h
          exact ih _ _ h k ty hmem2 hnone
        · rw [if_neg hk] at h
          apply ih _ _ h k ty hmem2
          have hne : ¬(k0 = k) := fun hcon => he (Eq.symm hcon)
          simp only [alookup, if_neg hne]
          exact hnone

lemma get_verified_input_eq (f : SchemaFamily) (table : String) (schema : Schema)
    (input : List (String × Val)) (dia must : Bool)
    (hs : alookup table f.map = some schema) :
    get_verified_input f table input ⟨dia, must⟩ =
      match gvi_loop f schema table dia input [] with
      | .error e => .error e
      | .ok updated =>
        if must &&
            !(schema.types.filter (fun kt => !(input.any (fun p => p.1 = kt.1)))).isEmpty then
          gvi_fill schema table
            (schema.types.filter (fun kt => !(input.any (fun p => p.1 = kt.1)))) updated
        else .ok updated := by
  unfold get_verified_input SchemaFamily.try_get_schema
  rw [hs]

/-- C4: in full-column mode (`must_have_every_col = true`) `get_verified_input`
either fails or returns a record binding every schema-declared column, where a
required column is never bound to an empty value and a column absent from the
payload is bound to its schema default; a required column absent from the
payload whose default is empty always makes the call fail (the required-field
check is re-run against the default); and in partial mode
(`must_have_every_col = false`) the call succeeds whenever every field actually
present in the payload passes its per-field check — a payload is never
rejected merely for omitting columns. -/
theorem get_verified_input_modes (f : SchemaFamily) (table : String) (schema : Schema)
    (input : List (String × Val)) (dia : Bool)
    (hs : alookup table f.map = some schema) :
    (∀ out, get_verified_input f table input ⟨dia, true⟩ = .ok out →
      ∀ c ty, (c, ty) ∈ schema.types →
        ∃ v, alookup c out = some v ∧
          (c ∈ schema.required_fields → is_empty v = false) ∧
          (input.any (fun p => p.1 = c) = false → v = get_col_default schema c)) ∧
    (∀ c ty, (c, ty) ∈ schema.types → input.any (fun p => p.1 = c) = false →
      c ∈ schema.required_fields → is_empty (get_col_default schema c) = true →
      ∃ e, get_verified_input f table input ⟨dia, true⟩ = .error e) ∧
    ((∀ p ∈ input, ∃ uv, gvi_check_field f schema table dia p.1 p.2 = .ok uv) →
      ∃ out, get_verified_input f table input ⟨dia, false⟩ = .ok out) := by
  refine ⟨?_, ?_, ?_⟩
  · intro out hout c ty hcty
    rw [get_verified_input_eq f table schema input dia true hs] at hout
    cases hg : gvi_loop f schema table dia input [] with
    | error e => rw [hg] at hout; cases hout
    | ok updated =>
      rw [hg] at hout
      by_cases hpres : input.any (fun p => p.1 = c) = true
      · have hsome := gvi_loop_covers f schema table dia input [] updated hg c hpres
        obtain ⟨uv, halo⟩ := Option.isSome_iff_exists.mp hsome
        have hprov := gvi_loop_lookup_ok f schema table dia input [] updated hg c uv halo
        rcases hprov with hacc | ⟨v0, hchk⟩
        · cases hacc
        · obtain ⟨-, -, hreqok⟩ := gvi_check_field_ok f schema table dia c v0 uv hchk
          have hreqfact : c ∈ schema.required_fields → is_empty uv = false := by
            intro hmemreq
            have := (verify_required_ok_iff schema table c uv).mp hreqok
            cases hie : is_empty uv with
            | false => rfl
            | true => exact absurd ⟨hmemreq, hie⟩ this
          refine ⟨uv, ?_, hreqfact, ?_⟩
          · by_cases hb : (true &&
                !(schema.types.filter (fun kt => !(input.any (fun p => p.1 = kt.1)))).isEmpty)
                = true
            · rw [hb] at hout
              simp only [if_true] at hout
              exact gvi_fill_preserves schema table _ _ _ hout c uv halo
            · rw [Bool.not_eq_true] at hb
              rw [hb] at hout
              simp only [Bool.false_eq_true, if_false] at hout
              cases hout
              exact halo
          · intro habs
            rw [habs] at hpres
            cases hpres
      · have hpres2 : input.any (fun p => p.1 = c) = false := by
          cases hx : input.any (fun p => p.1 = c) with
          | false => rfl
          | true => exact absurd hx hpres
        have hmemtc : (c, ty) ∈
            schema.types.filter (fun kt => !(input.any (fun p => p.1 = kt.1))) := by
          apply List.mem_filter.mpr
          refine ⟨hcty, ?_⟩
          simp only [hpres2, Bool.not_false]
        have htcne :
            (schema.types.filter (fun kt => !(input.any (fun p => p.1 = kt.1)))).isEmpty
              = false := by
          cases htc : schema.types.filter (fun kt => !(input.any (fun p => p.1 = kt.1))) with
          | nil => rw [htc] at hmemtc; simp at hmemtc
          | cons x l => rfl
        rw [htcne] at hout
        simp only [Bool.not_false, Bool.and_true, if_true] at hout
        have hnone : alookup c updated = none :=
          gvi_loop_untouched f schema table dia input [] updated hg c hpres2
        have hfilled := gvi_fill_fills schema table _ _ _ hout c ty hmemtc hnone
        have hreqok := gvi_fill_required_ok schema table _ _ _ hout c ty hmemtc
        have hreqfact : c ∈ schema.required_fields →
            is_empty (get_col_default schema c) = false := by
          intro hmemreq
          have := (verify_required_ok_iff schema table c (get_col_default schema c)).mp hreqok
          cases hie : is_empty (get_col_default schema c) with
          | false => rfl
          | true => exact absurd ⟨hmemreq, hie⟩ this
        exact ⟨get_col_default schema c, hfilled, hreqfact, fun _ => rfl⟩
  · intro c ty hcty habs hreq hempty
    cases hov : get_verified_input f table input ⟨dia, true⟩ with
    | error e => exact ⟨e, rfl⟩
    | ok out =>
      exfalso
      rw [get_verified_input_eq f table schema input dia true hs] at hov
      cases hg : gvi_loop f schema table dia input [] with
      | error e => rw [hg] at hov; cases hov
      | ok updated =>
        rw [hg] at hov
        have hmemtc : (c, ty) ∈
            schema.types.filter (fun kt => !(input.any (fun p => p.1 = kt.1))) := by
          apply List.mem_filter.mpr
          refine ⟨hcty, ?_⟩
          simp only [habs, Bool.not_false]
        have htcne :
            (schema.types.filter (fun kt => !(input.any (fun p => p.1 = kt.1)))).isEmpty
              = false := by
          cases htc : schema.types.filter (fun kt => !(input.any (fun p => p.1 = kt.1))) with
          | nil => rw [htc] at hmemtc; simp at hmemtc
          | cons x l => rfl
        rw [htcne] at hov
        simp only [Bool.not_false, Bool.and_true, if_true] at hov
        have hreqok := gvi_fill_required_ok schema table _ _ _ hov c ty hmemtc
        exact (verify_required_ok_iff schema table c (get_col_default schema c)).mp hreqok
          ⟨hreq, hempty⟩
  · intro hall
    obtain ⟨updated, hupd⟩ := gvi_loop_total f schema table dia input [] hall
    rw [get_verified_input_eq f table schema input dia false hs, hupd]
    exact ⟨updated, by simp⟩

/-- C4 witness: on the example `song` schema, full-column mode fails for a
payload that omits the required `name` column (its default is the empty
string), and partial mode accepts a payload holding only `memo`. -/
theorem get_verified_input_modes_witness :
    (∃ e, get_verified_input exFam "song" [("memo", Val.text "hi")] ⟨false, true⟩ = .error e) ∧
    (∃ out, get_verified_input exFam "song" [("memo", Val.text "hi")] ⟨false, false⟩ = .ok out) := by
  constructor
  · exact (get_verified_input_modes exFam "song" schemaSong [("memo", Val.text "hi")] false
      (by rfl)).2.1 "name" DbType.text (by decide) (by decide) (by decide) (by decide)
  · refine (get_verified_input_modes exFam "song" schemaSong [("memo", Val.text "hi")] false
      (by rfl)).2.2 ?_
    intro p hp
    rw [List.mem_singleton] at hp
    subst hp
    exact ⟨Val.text "hi", by rfl⟩

/-! ## C1 -/

lemma ebind_ok_inv {A B : Type} (x : Except Err A) (g : A → Except Err B) (b : B)
    (h : ebind x g = .ok b) : ∃ a, x = .ok a ∧ g a = .ok b := by
  cases hx : x with
  | error e =>
    exfalso
    have hred : ebind x g = .error e := by rw [hx]; rfl
    rw [hred] at h
    cases h
  | ok a =>
    refine ⟨a, rfl, ?_⟩
    have hred : ebind x g = g a := by rw [hx]; rfl
    rw [hred] at h
    exact h

lemma fetch_schema_family_ok_inv (tables : List (String × List RawColumn)) (pp ps : String)
    (fam : SchemaFamily) (h : fetch_schema_family tables pp ps = .ok fam) :
    ∃ sm acc pcands peersE pc,
      extract_schema_metadata tables = .ok sm ∧
      resolve_tables (sm.map (fun x => (x.1, x.2.1.pk)))
        (effective_name_part DEFAULT_PEER_PFX pp) (effective_name_part DEFAULT_PEER_SPLITTER ps)
        sm ⟨[], [], [], [], []⟩ = .ok acc ∧
      find_parent_candidates acc.column_map acc.possible_fks acc.map = .ok pcands ∧
      add_peer_pairs acc.map acc.peer_pair_candidates [] = .ok peersE ∧
      add_parent_edges acc.map pcands ([], []) = .ok pc ∧
      fam = ⟨acc.map, pc.1, pc.2, peersE, acc.peer_tables⟩ := by
  unfold fetch_schema_family at h
  obtain ⟨sm, h1, h⟩ := ebind_ok_inv _ _ _ h
  obtain ⟨acc, h2, h⟩ := ebind_ok_inv _ _ _ h
  obtain ⟨pcands, h3, h⟩ := ebind_ok_inv _ _ _ h
  obtain ⟨peersE, h4, h⟩ := ebind_ok_inv _ _ _ h
  obtain ⟨pc, h5, h⟩ := ebind_ok_inv _ _ _ h
  cases h
  exact ⟨sm, acc, pcands, peersE, pc, h1, h2, h3, h4, h5, rfl⟩

lemma add_peer_pairs_symm (mapL : List (String × Schema)) :
    ∀ cands peersE out, add_peer_pairs mapL cands peersE = .ok out →
      (∀ a b, (a, b) ∈ peersE → (b, a) ∈ peersE) →
      ∀ a b, (a, b) ∈ out → (b, a) ∈ out := by
  intro cands
  induction cands with
  | nil =>
    intro peersE out h hsym a b hm
    cases h
    exact hsym a b hm
  | cons c rest ih =>
    intro peersE out h hsym a b hm
    obtain ⟨p1, p2, tname⟩ := c
    simp only [add_peer_pairs] at h
    by_cases h1 : (alookup p1 mapL).isNone = true
    · rw [if_pos h1] at h; cases h
    · rw [if_neg h1] at h
      by_cases h2 : (alookup p2 mapL).isNone = true
      · rw [if_pos h2] at h; cases h
      · rw [if_neg h2] at h
        refine ih _ _ h ?_ a b hm
        intro x y hxy
        simp only [List.mem_cons] at hxy ⊢
        rcases hxy with heq | heq | hmem
        · cases heq
          exact Or.inr (Or.inl rfl)
        · cases heq
          exact Or.inl rfl
        · exact Or.inr (Or.inr (hsym x y hmem))

lemma add_parent_edges_inv (mapL : List (String × Schema)) :
    ∀ cands pe ce out, add_parent_edges mapL cands (pe, ce) = .ok out →
      (∀ c p, ((c, p) ∈ pe ↔ (p, c) ∈ ce)) →
      ∀ c p, ((c, p) ∈ out.1 ↔ (p, c) ∈ out.2) := by
  intro cands
  induction cands with
  | nil =>
    intro pe ce out h hinv c p
    cases h
    exact hinv c p
  | cons cand rest ih =>
    intro pe ce out h hinv c p
    obtain ⟨parent_name, child_name, col⟩ := cand
    simp only [add_parent_edges] at h
    by_cases h1 : (alookup parent_name mapL).isNone = true
    · rw [if_pos h1] at h; cases h
    · rw [if_neg h1] at h
      refine ih _ _ _ h ?_ c p
      intro x y
      simp only [List.mem_cons]
      constructor
      · rintro (heq | hmem)
        · cases heq
          exact Or.inl rfl
        · exact Or.inr ((hinv x y).mp hmem)
      · rintro (heq | hmem)
        · cases heq
          exact Or.inl rfl
        · exact Or.inr ((hinv x y).mpr hmem)

/-- C1: for every successfully resolved schema family, the peers map is
symmetric ((a, b) is registered iff (b, a) is) and the parents and children
maps are mutual inverses ((child, parent) is in `parents` iff
(parent, child) is in `children`). -/
theorem fetch_schema_family_relations_symmetric (tables : List (String × List RawColumn))
    (pp ps : String) (fam : SchemaFamily)
    (h : fetch_schema_family tables pp ps = .ok fam) :
    (∀ a b, ((a, b) ∈ fam.peers ↔ (b, a) ∈ fam.peers)) ∧
    (∀ c p, ((c, p) ∈ fam.parents ↔ (p, c) ∈ fam.children)) := by
  obtain ⟨sm, acc, pcands, peersE, pc, h1, h2, h3, h4, h5, rfl⟩ :=
    fetch_schema_family_ok_inv tables pp ps fam h
  constructor
  · intro a b
    have hempty : ∀ x y : String, (x, y) ∈ ([] : List (String × String)) → (y, x) ∈ [] := by
      intro x y hxy
      simp at hxy
    exact ⟨fun hm => add_peer_pairs_symm acc.map acc.peer_pair_candidates [] peersE h4 hempty a b hm,
      fun hm => add_peer_pairs_symm acc.map acc.peer_pair_candidates [] peersE h4 hempty b a hm⟩
  · intro c p
    refine add_parent_edges_inv acc.map pcands [] [] pc h5 ?_ c p
    intro x y
    simp

/-- C1 witness: in the resolved example family, song/album peer edges and the
song-artist parenthood check out both ways. -/
theorem fetch_schema_family_relations_symmetric_witness :
    (("song", "album") ∈ exFam.peers ↔ ("album", "song") ∈ exFam.peers) ∧
    (("song", "artist") ∈ exFam.parents ↔ ("artist", "song") ∈ exFam.children) :=
  ⟨(fetch_schema_family_relations_symmetric exT "" "" exFam (by rfl)).1 "song" "album",
   (fetch_schema_family_relations_symmetric exT "" "" exFam (by rfl)).2 "song" "artist"⟩

/-! ## C2 -/

lemma resolve_tables_cons_inv (pk : List (String × String)) (pfx sp : String)
    (t0 : String) (schema0 : Schema) (cols0 : List ColumnMeta)
    (rest : List (String × Schema × List ColumnMeta)) (acc out : ResolveAcc)
    (h : resolve_tables pk pfx sp ((t0, schema0, cols0) :: rest) acc = .ok out) :
    (∃ p1 p2, is_peer_link pfx t0 = true ∧
      get_peer_names pk t0 pfx sp cols0 = .ok (p1, p2) ∧
      resolve_tables pk pfx sp rest
        { acc with
          map := (t0, schema0) :: acc.map,
          peer_tables := (p2, t0) :: (p1, t0) :: acc.peer_tables,
          peer_pair_candidates := acc.peer_pair_candidates ++ [(p1, p2, t0)] } = .ok out) ∨
    (is_peer_link pfx t0 = false ∧
      resolve_tables pk pfx sp rest
        { acc with
          map := (t0, schema0) :: acc.map,
          column_map := (t0, cols0) :: acc.column_map,
          possible_fks := (t0 ++ "_" ++ schema0.pk, t0,
            (alookup schema0.pk schema0.types).getD .null) :: acc.possible_fks } = .ok out) := by
  simp only [resolve_tables] at h
  by_cases hpl : is_peer_link pfx t0 = true
  · rw [if_pos hpl] at h
    cases hg : get_peer_names pk t0 pfx sp cols0 with
    | error e => rw [hg] at h; cases h
    | ok pr =>
      obtain ⟨p1, p2⟩ := pr
      rw [hg] at h
      exact Or.inl ⟨p1, p2, hpl, rfl, h⟩
  · rw [if_neg hpl] at h
    exact Or.inr ⟨Bool.not_eq_true _ ▸ eq_false_of_ne_true hpl, h⟩

lemma resolve_tables_junction_processed (pk : List (String × String)) (pfx sp : String) :
    ∀ ts acc out, resolve_tables pk pfx sp ts acc = .ok out →
      ∀ t schema cols, (t, schema, cols) ∈ ts → is_peer_link pfx t = true →
        ∃ p1 p2, get_peer_names pk t pfx sp cols = .ok (p1, p2) := by
  intro ts
  induction ts with
  | nil =>
    intro acc out _ t schema cols hmem
    simp at hmem
  | cons hd rest ih =>
    intro acc out h t schema cols hmem hpl
    obtain ⟨t0, schema0, cols0⟩ := hd
    rcases resolve_tables_cons_inv pk pfx sp t0 schema0 cols0 rest acc out h with
      ⟨p1, p2, hpl0, hg0, hrec⟩ | ⟨hpl0, hrec⟩
    · rcases List.mem_cons.mp hmem with heq | hmem2
      · have ht : t = t0 := congrArg (fun x => x.1) heq
        have hc : cols = cols0 := congrArg (fun x => x.2.2) heq
        rw [ht, hc]
        exact ⟨p1, p2, hg0⟩
      · exact ih _ _ hrec t schema cols hmem2 hpl
    · rcases List.mem_cons.mp hmem with heq | hmem2
      · have ht : t = t0 := congrArg (fun x => x.1) heq
        rw [ht] at hpl
        rw [hpl] at hpl0
        cases hpl0
      · exact ih _ _ hrec t schema cols hmem2 hpl

lemma resolve_tables_peer_mem (pk : List (String × String)) (pfx sp : String) :
    ∀ ts acc out, resolve_tables pk pfx sp ts acc = .ok out →
      ∀ k j, ((k, j) ∈ out.peer_tables ↔
        ((k, j) ∈ acc.peer_tables ∨
          ∃ schema cols p1 p2, (j, schema, cols) ∈ ts ∧ is_peer_link pfx j = true ∧
            get_peer_names pk j pfx sp cols = .ok (p1, p2) ∧ (k = p1 ∨ k = p2))) := by
  intro ts
  induction ts with
  | nil =>
    intro acc out h k j
    cases h
    simp
  | cons hd rest ih =>
    intro acc out h k j
    obtain ⟨t0, schema0, cols0⟩ := hd
    rcases resolve_tables_cons_inv pk pfx sp t0 schema0 cols0 rest acc out h with
      ⟨p1, p2, hpl0, hg0, hrec⟩ | ⟨hpl0, hrec⟩
    · rw [ih _ _ hrec k j]
      constructor
      · rintro (hmem | hex)
        · rcases List.mem_cons.mp hmem with heq | hmem2
          · have hk : k = p2 := congrArg Prod.fst heq
            have hj : j = t0 := congrArg Prod.snd heq
            refine Or.inr ⟨schema0, cols0, p1, p2, ?_, ?_, ?_, Or.inr hk⟩
            · rw [hj]; exact List.mem_cons_self ..
            · rw [hj]; exact hpl0
            · rw [hj]; exact hg0
          · rcases List.mem_cons.mp hmem2 with heq | hmem3
            · have hk : k = p1 := congrArg Prod.fst heq
              have hj : j = t0 := congrArg Prod.snd heq
              refine Or.inr ⟨schema0, cols0, p1, p2, ?_, ?_, ?_, Or.inl hk⟩
              · rw [hj]; exact List.mem_cons_self ..
              · rw [hj]; exact hpl0
              · rw [hj]; exact hg0
            · exact Or.inl hmem3
        · obtain ⟨s2, c2, q1, q2, hmem2, hpl2, hg2, hk2⟩ := hex
          exact Or.inr ⟨s2, c2, q1, q2, List.mem_cons_of_mem _ hmem2, hpl2, hg2, hk2⟩
      · rintro (hmem | hex)
        · exact Or.inl (List.mem_cons_of_mem _ (List.mem_cons_of_mem _ hmem))
        · obtain ⟨s2, c2, q1, q2, hmem2, hpl2, hg2, hk2⟩ := hex
          rcases List.mem_cons.mp hmem2 with heq | hmem3
          · have hj : j = t0 := congrArg (fun x => x.1) heq
            have hc : c2 = cols0 := congrArg (fun x => x.2.2) heq
            rw [hj, hc] at hg2
            have h12 : (p1, p2) = (q1, q2) := Except.ok.inj (hg0.symm.trans hg2)
            have hq1 : p1 = q1 := congrArg Prod.fst h12
            have hq2 : p2 = q2 := congrArg Prod.snd h12
            rcases hk2 with hkk | hkk
            · apply Or.inl
              rw [hkk, ← hq1, hj]
              exact List.mem_cons_of_mem _ (List.mem_cons_self ..)
            · apply Or.inl
              rw [hkk, ← hq2, hj]
              exact List.mem_cons_self ..
          · exact Or.inr ⟨s2, c2, q1, q2, hmem3, hpl2, hg2, hk2⟩
    · rw [ih _ _ hrec k j]
      constructor
      · rintro (hmem | hex)
        · exact Or.inl hmem
        · obtain ⟨s2, c2, q1, q2, hmem2, hpl2, hg2, hk2⟩ := hex
          exact Or.inr ⟨s2, c2, q1, q2, List.mem_cons_of_mem _ hmem2, hpl2, hg2, hk2⟩
      · rintro (hmem | hex)
        · exact Or.inl hmem
        · obtain ⟨s2, c2, q1, q2, hmem2, hpl2, hg2, hk2⟩ := hex
          rcases List.mem_cons.mp hmem2 with heq | hmem3
          · have hj : j = t0 := congrArg (fun x => x.1) heq
            rw [hj] at hpl2
            rw [hpl2] at hpl0
            cases hpl0
          · exact Or.inr ⟨s2, c2, q1, q2, hmem3, hpl2, hg2, hk2⟩

lemma extract_schema_metadata_names :
    ∀ (tables : List (String × List RawColumn)) sm,
      extract_schema_metadata tables = .ok sm →
      sm.map (fun x => x.1) = tables.map Prod.fst := by
  intro tables
  induction tables with
  | nil =>
    intro sm h
    cases h
    rfl
  | cons hd rest ih =>
    intro sm h
    obtain ⟨name, raws⟩ := hd
    simp only [extract_schema_metadata] at h
    cases hc : get_columns_meta name raws with
    | error e => rw [hc] at h; cases h
    | ok cols =>
      rw [hc] at h
      cases hr : extract_schema_metadata rest with
      | error e => rw [hr] at h; cases h
      | ok tl =>
        rw [hr] at h
        cases h
        simp only [List.map_cons, List.map]
        rw [ih tl hr]

/-- C2 (amended): in a successfully resolved family, a table is processed as a
junction-candidate — observable as some table being mapped to it in
`peer_link_tables` — if and only if its name starts with the effective prefix
alone; the splitter is not consulted by the classification (the counterexample
shows a table starting with the prefix but not with prefix-then-splitter that
is still resolved as a junction table). -/
theorem junction_classification_pfx_only (tables : List (String × List RawColumn))
    (pp ps : String) (fam : SchemaFamily) (j : String)
    (h : fetch_schema_family tables pp ps = .ok fam) :
    (∃ k, (k, j) ∈ fam.peer_link_tables) ↔
      (j ∈ tables.map Prod.fst ∧
        is_peer_link (effective_name_part DEFAULT_PEER_PFX pp) j = true) := by
  obtain ⟨sm, acc, pcands, peersE, pc, h1, h2, h3, h4, h5, rfl⟩ :=
    fetch_schema_family_ok_inv tables pp ps fam h
  constructor
  · rintro ⟨k, hk⟩
    have hmem := (resolve_tables_peer_mem _ _ _ sm ⟨[], [], [], [], []⟩ acc h2 k j).mp hk
    rcases hmem with hmem | ⟨s2, c2, p1, p2, hmem, hpl, hg, hk2⟩
    · simp at hmem
    · constructor
      · rw [← extract_schema_metadata_names tables sm h1]
        exact List.mem_map.mpr ⟨(j, s2, c2), hmem, rfl⟩
      · exact hpl
  · rintro ⟨hjmem, hpl⟩
    rw [← extract_schema_metadata_names tables sm h1] at hjmem
    obtain ⟨x, hxmem, hxeq⟩ := List.mem_map.mp hjmem
    obtain ⟨j2, s2, c2⟩ := x
    simp only at hxeq
    subst hxeq
    obtain ⟨p1, p2, hg⟩ :=
      resolve_tables_junction_processed _ _ _ sm ⟨[], [], [], [], []⟩ acc h2 j2 s2 c2 hxmem hpl
    refine ⟨p1, ?_⟩
    exact (resolve_tables_peer_mem _ _ _ sm ⟨[], [], [], [], []⟩ acc h2 p1 j2).mpr
      (Or.inr ⟨s2, c2, p1, p2, hxmem, hpl, hg, Or.inl rfl⟩)

/-- C2 witness: `rel_album_song` is classified as a junction candidate in the
example family (with defaulted prefix and splitter). -/
theorem junction_classification_pfx_only_witness :
    "rel_album_song" ∈ exT.map Prod.fst ∧
    is_peer_link (effective_name_part DEFAULT_PEER_PFX "") "rel_album_song" = true :=
  (junction_classification_pfx_only exT "" "" exFam "rel_album_song" (by rfl)).mp
    ⟨"album", by decide⟩

/-- C2 counterexample: with prefix `rel` and splitter `_`, the table
`rela_b_c` does not start with `rel_`, so under the claim it would be an
entity table; the code still classifies it as a junction candidate — the
resolution succeeds, registers it as the peer link table, and makes `b` and
`c` peers. -/
theorem junction_classification_splitter_cex :
    fetch_schema_family cexT2 "rel" "_" = .ok fam2 ∧
    strStartsWith "rela_b_c" ("rel" ++ "_") = false ∧
    ("b", "rela_b_c") ∈ fam2.peer_link_tables ∧
    ("b", "c") ∈ fam2.peers := by
  refine ⟨rfl, rfl, by decide, by decide⟩

/-! ## C10 -/

lemma get_peer_names_ok_inv (pk : List (String × String)) (tn pfx sp : String)
    (cols : List ColumnMeta) (p1 p2 : String)
    (h : get_peer_names pk tn pfx sp cols = .ok (p1, p2)) :
    (strSplitOn tn sp).drop 1 = [p1, p2] := by
  unfold get_peer_names at h
  cases hs : (strSplitOn tn sp).drop 1 with
  | nil => rw [hs] at h; cases h
  | cons x xs =>
    cases xs with
    | nil => rw [hs] at h; cases h
    | cons y ys =>
      cases ys with
      | nil =>
        rw [hs] at h
        obtain ⟨u1, hc1, h⟩ := ebind_ok_inv _ _ _ h
        obtain ⟨u2, hc2, h⟩ := ebind_ok_inv _ _ _ h
        cases h
        rfl
      | cons z zs => rw [hs] at h; cases h

lemma link_plan_rel (f : SchemaFamily) (a b : String) (av bv : List Val)
    (pl : String × String × String × List Val × List Val)
    (h : link_plan f [(a, av), (b, bv)] = .ok pl) :
    f.try_get_peer_link_table_of a = .ok pl.1 := by
  unfold link_plan at h
  obtain ⟨cfgs, hcfg, h⟩ := ebind_ok_inv _ _ _ h
  have hcfg2 : cfgs = ((a, av), (b, bv)) := by
    have : get_2_configs [(a, av), (b, bv)] = .ok ((a, av), (b, bv)) := rfl
    exact (Except.ok.inj (this.symm.trans hcfg)).symm
  subst hcfg2
  obtain ⟨u1, h1, h⟩ := ebind_ok_inv _ _ _ h
  obtain ⟨u2, h2, h⟩ := ebind_ok_inv _ _ _ h
  obtain ⟨u3, h3, h⟩ := ebind_ok_inv _ _ _ h
  obtain ⟨rel, hrel, h⟩ := ebind_ok_inv _ _ _ h
  obtain ⟨ac, hac, h⟩ := ebind_ok_inv _ _ _ h
  obtain ⟨bc, hbc, h⟩ := ebind_ok_inv _ _ _ h
  cases h
  exact hrel

/-- C10: in every successfully resolved family, `try_get_peer_link_table_of`
is single-valued (the `peer_link_tables` map retains exactly one junction
table per table name); every retained entry (t, j) points at one of the
junction-candidate tables j of the catalog whose split names contain t (so
when t participates in several junction tables, whichever entry survived the
map insertions is the one retained); and `link` — hence `unlink`, which runs
the identical selection — resolves the junction table by looking up only the
FIRST group's table name, so it uses that single junction table for every
peer it is called with. -/
theorem peer_link_table_unique_per_table (tables : List (String × List RawColumn))
    (pp ps : String) (fam : SchemaFamily)
    (h : fetch_schema_family tables pp ps = .ok fam) :
    (∀ t j j', fam.try_get_peer_link_table_of t = .ok j →
      fam.try_get_peer_link_table_of t = .ok j' → j = j') ∧
    (∀ t j, (t, j) ∈ fam.peer_link_tables →
      j ∈ tables.map Prod.fst ∧
      ∃ p1 p2, (strSplitOn j (effective_name_part DEFAULT_PEER_SPLITTER ps)).drop 1 = [p1, p2] ∧
        (t = p1 ∨ t = p2)) ∧
    (∀ a av b bv b2 bv2 pl pl2,
      link_plan fam [(a, av), (b, bv)] = .ok pl →
      link_plan fam [(a, av), (b2, bv2)] = .ok pl2 → pl.1 = pl2.1) ∧
    (∀ a av b bv pl, link_plan fam [(a, av), (b, bv)] = .ok pl →
      fam.try_get_peer_link_table_of a = .ok pl.1) := by
  obtain ⟨sm, acc, pcands, peersE, pc, h1, h2, h3, h4, h5, rfl⟩ :=
    fetch_schema_family_ok_inv tables pp ps fam h
  refine ⟨?_, ?_, ?_, ?_⟩
  · intro t j j' hj hj'
    exact Except.ok.inj (hj.symm.trans hj')
  · intro t j hmem
    have := (resolve_tables_peer_mem _ _ _ sm ⟨[], [], [], [], []⟩ acc h2 t j).mp hmem
    rcases this with hmem0 | ⟨s2, c2, p1, p2, hmem2, hpl2, hg2, hk2⟩
    · simp at hmem0
    · constructor
      · rw [← extract_schema_metadata_names tables sm h1]
        exact List.mem_map.mpr ⟨(j, s2, c2), hmem2, rfl⟩
      · exact ⟨p1, p2, get_peer_names_ok_inv _ _ _ _ _ _ _ hg2, hk2⟩
  · intro a av b bv b2 bv2 pl pl2 hp hp2
    have ha := link_plan_rel _ _ _ _ _ _ hp
    have ha2 := link_plan_rel _ _ _ _ _ _ hp2
    exact Except.ok.inj (ha.symm.trans ha2)
  · intro a av b bv pl hp
    exact link_plan_rel _ _ _ _ _ _ hp

/-- C10 witness: in `fam10`, linking a with b and linking a with c use the
same single junction table (here `rel_a_c`, the retained entry for `a`), even
though the pairs of a and b live in `rel_a_b`. -/
theorem peer_link_table_unique_per_table_witness :
    pl10b.1 = pl10c.1 ∧ pl10b.1 = "rel_a_c" := by
  constructor
  · exact (peer_link_table_unique_per_table exT10 "" "" fam10 (by rfl)).2.2.1
      "a" [Val.integer 1] "b" [Val.integer 1] "c" [Val.integer 1] pl10b pl10c
      (by rfl) (by rfl)
  · rfl
